import Mathlib

/-!
Verification development for the diagnostic aggregation engine of `getdoc`
(`src/main.rs`).  The engine rebuilds a project under several feature
configurations, walks the compiler's recursive diagnostic trees, classifies
referenced files, and consolidates all runs into a deduplicated sorted report.

Modelling conventions:
* Machine strings are modelled as `List Char` (named `Str`), so that every
  operation (lexicographic comparison, trimming, joining) is a structurally
  recursive, kernel-computable function.  Rust's byte-lexicographic `Ord` on
  `String` is modelled by the lexicographic order on the character list.
* File-system paths (`PathBuf`) are modelled as an absolute-flag plus a
  component list; `fs::canonicalize` and `Path::is_file` are modelled by an
  explicit `FileSystem` oracle, since they read ambient file-system state.
* `HashMap`s whose iteration order matters are modelled as association lists
  in insertion order; `HashSet<String>` accumulators are modelled as sorted
  duplicate-free lists (a canonical representation of an unordered set).
* The external build collaborator (`cargo check`) is modelled as an oracle
  `probe : List Str → Except Str CargoRunResult`, matching the fallible call
  `run_cargo_check_with_features`.
-/

/-- Machine strings, modelled as character lists. -/
abbrev Str : Type := List Char

/-- Embed a Lean string literal into the model. -/
def str (s : String) : Str := s.toList

/-- Lexicographic strict order on strings, modelling Rust's `Ord for String`. -/
def strLt : Str → Str → Bool
  | [], [] => false
  | [], _ :: _ => true
  | _ :: _, [] => false
  | a :: s, b :: t => if a < b then true else if b < a then false else strLt s t

/-- Non-strict string order (`a ≤ b` iff `¬ b < a`). -/
def strLe (a b : Str) : Bool := !(strLt b a)

/-- Propositional form of `strLe`, used as the sorting relation. -/
def strLeP (a b : Str) : Prop := strLe a b = true

instance : DecidableRel strLeP := fun a b => inferInstanceAs (Decidable (_ = true))

/-- Strict order on optional strings, modelling Rust's `Ord for Option<String>`
(`None` sorts before `Some`). -/
def optStrLt : Option Str → Option Str → Bool
  | none, none => false
  | none, some _ => true
  | some _, none => false
  | some a, some b => strLt a b

/-- Whitespace test used by trimming (models `char::is_whitespace`). -/
def isWs (c : Char) : Bool := c.isWhitespace

/-- Model of Rust `str::trim_end`. -/
def trimRightS (s : Str) : Str := (s.reverse.dropWhile isWs).reverse

/-- Model of Rust `str::trim_start`. -/
def trimLeftS (s : Str) : Str := s.dropWhile isWs

/-- Model of Rust `str::trim`. -/
def trimS (s : Str) : Str := trimLeftS (trimRightS s)

/-- Model of `Vec::join(sep)` for strings. -/
def joinStr (sep : Str) (parts : List Str) : Str := List.intercalate sep parts

/-- Decimal rendering of a line number (models `format!("{}", n)`). -/
def natToStr (n : Nat) : Str := Nat.toDigits 10 n

/-- File-system paths: absolute flag plus component list (models `PathBuf`). -/
structure FsPath where
  absolute : Bool
  comps : List Str
deriving DecidableEq, Repr

/-- Model of `Path::join`: an absolute argument replaces the base. -/
def FsPath.join (base p : FsPath) : FsPath :=
  if p.absolute then p else ⟨base.absolute, base.comps ++ p.comps⟩

/-- Model of `Path::starts_with`: component-wise prefix test. -/
def FsPath.startsWith (p base : FsPath) : Bool :=
  p.absolute == base.absolute && base.comps.isPrefixOf p.comps

/-- Model of `Path::strip_prefix` (returns the remainder on success). -/
def FsPath.stripBase (p base : FsPath) : Option FsPath :=
  if p.startsWith base then some ⟨false, p.comps.drop base.comps.length⟩ else none

/-- Model of `Path::display().to_string()`. -/
def FsPath.display (p : FsPath) : Str :=
  (if p.absolute then [Char.ofNat 47] else []) ++ joinStr [Char.ofNat 47] p.comps

/-- Model of `Path::file_name().unwrap_or_default()`. -/
def FsPath.fileName (p : FsPath) : Str := (p.comps.getLast?).getD []

/-- Strict order on component lists (lexicographic), for `PathBuf`'s `Ord`. -/
def compsLt : List Str → List Str → Bool
  | [], [] => false
  | [], _ :: _ => true
  | _ :: _, [] => false
  | a :: s, b :: t => if strLt a b then true else if strLt b a then false else compsLt s t

/-- Strict order on paths, modelling `Ord for PathBuf` (a root component sorts
first, then components lexicographically). -/
def pathLt (p q : FsPath) : Bool :=
  if p.absolute = q.absolute then compsLt p.comps q.comps
  else p.absolute

/-- The file-system oracle: `fs::canonicalize` and `Path::is_file`. -/
structure FileSystem where
  canonicalize : FsPath → Option FsPath
  isFile : FsPath → Bool

/-- `RustcErrorCode` from `main.rs`. -/
structure RustcErrorCode where
  code : Str
  explanation : Option Str
deriving DecidableEq, Repr

/-- `RustcSpan` from `main.rs` (the file name is held as a parsed path). -/
structure RustcSpan where
  file_name : FsPath
  is_primary : Bool
  line_start : Nat
deriving DecidableEq, Repr

/-- `RustcDiagnosticData` from `main.rs`: the recursive diagnostic tree. -/
inductive RustcDiagnosticData : Type where
  | mk (code : Option RustcErrorCode) (level : Str) (spans : List RustcSpan)
      (children : List RustcDiagnosticData) (rendered : Option Str)

def RustcDiagnosticData.code : RustcDiagnosticData → Option RustcErrorCode
  | .mk c _ _ _ _ => c

def RustcDiagnosticData.level : RustcDiagnosticData → Str
  | .mk _ l _ _ _ => l

def RustcDiagnosticData.spans : RustcDiagnosticData → List RustcSpan
  | .mk _ _ sp _ _ => sp

def RustcDiagnosticData.children : RustcDiagnosticData → List RustcDiagnosticData
  | .mk _ _ _ ch _ => ch

def RustcDiagnosticData.rendered : RustcDiagnosticData → Option Str
  | .mk _ _ _ _ r => r

/-- Replace the node's own rendered text (children untouched). -/
def RustcDiagnosticData.withRendered : RustcDiagnosticData → Option Str → RustcDiagnosticData
  | .mk c l sp ch _, r => .mk c l sp ch r

/-- `DiagnosticOriginInfo` from `main.rs`. -/
structure DiagnosticOriginInfo where
  level : Str
  code : Option Str
  originating_diagnostic_span_location : Str
  feature_set_desc : Str
deriving DecidableEq, Repr

/-- `DisplayableDiagnostic` from `main.rs`. -/
structure DisplayableDiagnostic where
  level : Str
  code : Option Str
  code_explanation : Option Str
  rendered : Str
  primary_location_of_diagnostic : Str
  implicated_third_party_files_details : List (FsPath × Str)
deriving DecidableEq, Repr

/-- Ambient data of one probe run, threaded through the tree walker. -/
structure RunEnv where
  fs : FileSystem
  current_dir : FsPath
  cargo_home_dir : Option FsPath
  feature_desc : Str

/-- The three mutable accumulators of `run_cargo_check_with_features`. -/
structure RunState where
  displayable_diagnostics : List DisplayableDiagnostic
  implicated_files : List FsPath
  referencers : List (FsPath × List DiagnosticOriginInfo)
deriving DecidableEq, Repr

/-- `HashSet<PathBuf>::insert`, on a list kept duplicate-free. -/
def insertFile (p : FsPath) (s : List FsPath) : List FsPath :=
  if p ∈ s then s else s ++ [p]

/-- `HashSet<DiagnosticOriginInfo>::insert`, on a list kept duplicate-free. -/
def insertOrigin (o : DiagnosticOriginInfo) (s : List DiagnosticOriginInfo) :
    List DiagnosticOriginInfo :=
  if o ∈ s then s else s ++ [o]

/-- `map.entry(path).or_default().insert(origin)` on the backreference index. -/
def refInsert (p : FsPath) (o : DiagnosticOriginInfo) :
    List (FsPath × List DiagnosticOriginInfo) → List (FsPath × List DiagnosticOriginInfo)
  | [] => [(p, [o])]
  | (q, os) :: t => if q = p then (q, insertOrigin o os) :: t else (q, os) :: refInsert p o t

/-- The display form of a span path: absolute paths are shown relative to the
project root when possible (`strip_prefix(current_dir).unwrap_or(path)`). -/
def displayPathOf (current_dir : FsPath) (path_obj : FsPath) : FsPath :=
  if path_obj.absolute then
    match path_obj.stripBase current_dir with
    | some rel => rel
    | none => path_obj
  else path_obj

/-- `"path:line"` for one span. -/
def spanLocStr (current_dir : FsPath) (s : RustcSpan) : Str :=
  (displayPathOf current_dir s.file_name).display ++ [Char.ofNat 58] ++ natToStr s.line_start

/-- The first loop of `process_single_diagnostic_data`: find the first span
flagged primary and render its location (the `break` stops at the first hit). -/
def findPrimarySpanLoc (current_dir : FsPath) : List RustcSpan → Option Str
  | [] => none
  | s :: rest =>
    if s.is_primary then some (spanLocStr current_dir s)
    else findPrimarySpanLoc current_dir rest

/-- The node's own primary location: first primary span, else first span with
a `(non-primary)` suffix, else the literal fallback text. -/
def finalPrimaryLocStr (current_dir : FsPath) (spans : List RustcSpan) : Str :=
  match findPrimarySpanLoc current_dir spans with
  | some loc => loc
  | none =>
    match spans with
    | [] => str "Unknown diagnostic location"
    | s :: _ => spanLocStr current_dir s ++ str " (non-primary)"

/-- Classification of one span's file, following §4.1 of the spec and the span
loop of `process_single_diagnostic_data`. -/
inductive PathClass where
  | inProject
  | thirdParty (canonical : FsPath)
  | unclassifiable
deriving DecidableEq, Repr

/-- The classifier: resolve the span path against the project root, then
canonicalize; failure is `unclassifiable`.  A canonical path under the project
root is `inProject`; one under a recognized cargo registry or git-checkout
root that is an existing regular file is `thirdParty`; anything else is
`unclassifiable`. -/
def classifySpanPath (env : RunEnv) (span : RustcSpan) : PathClass :=
  let path_obj := span.file_name
  let absolute_path := if path_obj.absolute then path_obj else env.current_dir.join path_obj
  match env.fs.canonicalize absolute_path with
  | none => .unclassifiable
  | some canonical_path =>
    if canonical_path.startsWith env.current_dir then .inProject
    else
      let is_in_cargo_registry :=
        match env.cargo_home_dir with
        | some ch =>
          canonical_path.startsWith ((ch.join ⟨false, [str "registry"]⟩).join ⟨false, [str "src"]⟩)
        | none => false
      let is_in_cargo_git :=
        match env.cargo_home_dir with
        | some ch =>
          canonical_path.startsWith ((ch.join ⟨false, [str "git"]⟩).join ⟨false, [str "checkouts"]⟩)
        | none => false
      if (is_in_cargo_registry || is_in_cargo_git) && env.fs.isFile canonical_path then
        .thirdParty canonical_path
      else .unclassifiable

/-- The canonical path recorded for a span, when it classifies as third-party. -/
def spanThirdParty (env : RunEnv) (span : RustcSpan) : Option FsPath :=
  match classifySpanPath env span with
  | .thirdParty canonical_path => some canonical_path
  | _ => none

/-- One iteration of the span loop of `process_single_diagnostic_data`:
accumulates (node-local details, run file set, run backreference index). -/
def processSpan (env : RunEnv) (level : Str) (codeStr : Option Str) (final_primary_loc : Str)
    (acc : List (FsPath × Str) × List FsPath × List (FsPath × List DiagnosticOriginInfo))
    (span : RustcSpan) :
    List (FsPath × Str) × List FsPath × List (FsPath × List DiagnosticOriginInfo) :=
  match spanThirdParty env span with
  | none => acc
  | some canonical_path =>
    let tp_file_name := canonical_path.fileName
    let tp_file_detail := tp_file_name ++ [Char.ofNat 58] ++ natToStr span.line_start
    let details :=
      if (canonical_path, tp_file_detail) ∈ acc.1 then acc.1
      else acc.1 ++ [(canonical_path, tp_file_detail)]
    let files := insertFile canonical_path acc.2.1
    let origin : DiagnosticOriginInfo :=
      ⟨level, codeStr, final_primary_loc, env.feature_desc⟩
    let refs := refInsert canonical_path origin acc.2.2
    (details, files, refs)

/-- Order used to sort a node's implicated-file details:
`p1.cmp(p2).then_with(d1.cmp(d2))`. -/
def detailLe (a b : FsPath × Str) : Bool :=
  if pathLt a.1 b.1 then true
  else if pathLt b.1 a.1 then false
  else strLe a.2 b.2

def detailLeP (a b : FsPath × Str) : Prop := detailLe a b = true

instance : DecidableRel detailLeP := fun a b => inferInstanceAs (Decidable (_ = true))

/-- `details.sort_by(|(p1,d1),(p2,d2)| p1.cmp(p2).then_with(|| d1.cmp(d2)))`. -/
def sortDetails (l : List (FsPath × Str)) : List (FsPath × Str) :=
  List.insertionSort detailLeP l

/-- `level == "error" || level == "warning"`. -/
def isReportableLevel (level : Str) : Bool :=
  level == str "error" || level == str "warning"

/-- The record-emission test of `process_single_diagnostic_data`: reportable
level and rendered text present and non-empty after trimming. -/
def emitCheck (level : Str) (rendered : Option Str) : Bool :=
  isReportableLevel level &&
    (match rendered with
     | some r => !(trimS r).isEmpty
     | none => false)

/-- Build the `DisplayableDiagnostic` pushed for a reportable node. -/
def mkDisplayable (code : Option RustcErrorCode) (level : Str) (rendered : Str)
    (sorted_details : List (FsPath × Str)) (final_primary_loc : Str) : DisplayableDiagnostic :=
  { level := level
    code := code.map RustcErrorCode.code
    code_explanation := code.bind RustcErrorCode.explanation
    rendered := trimRightS rendered
    primary_location_of_diagnostic := final_primary_loc
    implicated_third_party_files_details := sorted_details }

/-- The records this node itself pushes (one or none), given its sorted
implicated-file details. -/
def ownRecordsOf (code : Option RustcErrorCode) (level : Str) (rendered : Option Str)
    (sorted_details : List (FsPath × Str)) (final_primary_loc : Str) :
    List DisplayableDiagnostic :=
  if isReportableLevel level then
    match rendered with
    | some r =>
      if (trimS r).isEmpty then []
      else [mkDisplayable code level r sorted_details final_primary_loc]
    | none => []
  else []

mutual

/-- `process_single_diagnostic_data` from `main.rs`, in state-passing form:
compute the node's primary location, classify every span (updating the run's
file set and backreference index and collecting node-local details), push the
node's own record when the emission test passes, then recurse into every
child with the same configuration descriptor. -/
def process_single_diagnostic_data (env : RunEnv) (d : RustcDiagnosticData) (st : RunState) :
    RunState :=
  match d with
  | .mk code level spans children rendered =>
    let final_primary_loc := finalPrimaryLocStr env.current_dir spans
    let folded := spans.foldl
      (processSpan env level (code.map RustcErrorCode.code) final_primary_loc)
      ([], st.implicated_files, st.referencers)
    let sorted_details := sortDetails folded.1
    let st1 : RunState :=
      { displayable_diagnostics :=
          st.displayable_diagnostics ++
            ownRecordsOf code level rendered sorted_details final_primary_loc
        implicated_files := folded.2.1
        referencers := folded.2.2 }
    process_diagnostic_children env children st1

/-- The child loop at the end of `process_single_diagnostic_data`. -/
def process_diagnostic_children (env : RunEnv) (ds : List RustcDiagnosticData) (st : RunState) :
    RunState :=
  match ds with
  | [] => st
  | d :: rest => process_diagnostic_children env rest (process_single_diagnostic_data env d st)

end

mutual

/-- Direct (state-free) description of the records a subtree emits, used to
state structural properties of the walker. -/
def nodeRecords (env : RunEnv) (d : RustcDiagnosticData) : List DisplayableDiagnostic :=
  match d with
  | .mk code level spans children rendered =>
    let final_primary_loc := finalPrimaryLocStr env.current_dir spans
    let details := (spans.foldl
      (processSpan env level (code.map RustcErrorCode.code) final_primary_loc)
      ([], [], [])).1
    ownRecordsOf code level rendered (sortDetails details) final_primary_loc ++
      childListRecords env children

/-- Records emitted by a list of subtrees, in order. -/
def childListRecords (env : RunEnv) : List RustcDiagnosticData → List DisplayableDiagnostic
  | [] => []
  | d :: rest => nodeRecords env d ++ childListRecords env rest

end

/-- The stable string signature of an implicated-file detail list: each
`(path, detail)` pair is rendered `"path:detail"`, the parts are sorted, and
joined with `';'`. -/
def implicatedSignature (details : List (FsPath × Str)) : Str :=
  let signature_parts := details.map (fun pd => pd.1.display ++ [Char.ofNat 58] ++ pd.2)
  joinStr [Char.ofNat 59] (List.insertionSort strLeP signature_parts)

/-- `DisplayableDiagnostic::get_implicated_files_signature`. -/
def get_implicated_files_signature (d : DisplayableDiagnostic) : Str :=
  implicatedSignature d.implicated_third_party_files_details

/-- `DiagnosticInstanceKey` from `main.rs`. -/
structure DiagnosticInstanceKey where
  level : Str
  code : Option Str
  primary_location : Str
  rendered_message : Str
  implicated_files_signature : Str
deriving DecidableEq, Repr

/-- The key built for one record in the consolidation loop of `main`. -/
def instanceKeyOf (d : DisplayableDiagnostic) : DiagnosticInstanceKey :=
  { level := d.level
    code := d.code
    primary_location := d.primary_location_of_diagnostic
    rendered_message := d.rendered
    implicated_files_signature := get_implicated_files_signature d }

/-- Insert into a sorted duplicate-free string list (canonical model of
`HashSet<String>::insert`). -/
def insertSortedStr (a : Str) : List Str → List Str
  | [] => [a]
  | b :: t =>
    if a = b then b :: t
    else if strLt a b then a :: b :: t
    else b :: insertSortedStr a t

/-- `AggregatedDiagnosticInstance` from `main.rs`; the descriptor set is kept
as a sorted duplicate-free list. -/
structure AggregatedDiagnosticInstance where
  level : Str
  code : Option Str
  rendered_message : Str
  primary_location : Str
  implicated_third_party_files_details : List (FsPath × Str)
  feature_set_descriptors : List Str
deriving DecidableEq, Repr

/-- `feature_set_descriptors.insert(desc)`. -/
def AggregatedDiagnosticInstance.insertDesc (agg : AggregatedDiagnosticInstance)
    (feature_desc : Str) : AggregatedDiagnosticInstance :=
  { agg with feature_set_descriptors := insertSortedStr feature_desc agg.feature_set_descriptors }

/-- `AggregatedDiagnosticInstance::new`. -/
def newAggregated (d : DisplayableDiagnostic) (feature_desc : Str) :
    AggregatedDiagnosticInstance :=
  { level := d.level
    code := d.code
    rendered_message := d.rendered
    primary_location := d.primary_location_of_diagnostic
    implicated_third_party_files_details := d.implicated_third_party_files_details
    feature_set_descriptors := insertSortedStr feature_desc [] }

/-- Association-list lookup (models `HashMap::get`). -/
def alookup {κ ν : Type} [DecidableEq κ] (k : κ) : List (κ × ν) → Option ν
  | [] => none
  | (k₂, v) :: t => if k₂ = k then some v else alookup k t

/-- Update the value at a key in place (models mutating through `Entry`). -/
def aupdate {κ ν : Type} [DecidableEq κ] (k : κ) (f : ν → ν) :
    List (κ × ν) → List (κ × ν)
  | [] => []
  | (k₂, v) :: t => if k₂ = k then (k₂, f v) :: t else (k₂, v) :: aupdate k f t

/-- One record's effect on the consolidated map:
`entry(key).or_insert_with(new).feature_set_descriptors.insert(desc)`. -/
def consolidateStep (feature_desc : Str)
    (m : List (DiagnosticInstanceKey × AggregatedDiagnosticInstance))
    (d : DisplayableDiagnostic) :
    List (DiagnosticInstanceKey × AggregatedDiagnosticInstance) :=
  let key := instanceKeyOf d
  let m₂ := match alookup key m with
    | some _ => m
    | none => m ++ [(key, newAggregated d feature_desc)]
  aupdate key (fun agg => agg.insertDesc feature_desc) m₂

/-- The consolidation double loop of `main` over all runs' records. -/
def consolidateRuns (runs : List (Str × List DisplayableDiagnostic)) :
    List (DiagnosticInstanceKey × AggregatedDiagnosticInstance) :=
  runs.foldl (fun m run => run.2.foldl (consolidateStep run.1) m) []

/-- One record's effect on the code→explanation map:
first non-empty explanation per code wins (`entry(code).or_insert_with`). -/
def explanationStep (m : List (Str × Str)) (d : DisplayableDiagnostic) : List (Str × Str) :=
  match d.code, d.code_explanation with
  | some c, some e =>
    if (trimS e).isEmpty then m
    else
      match alookup c m with
      | some _ => m
      | none => m ++ [(c, e)]
  | _, _ => m

/-- The explanation-collection part of the consolidation loop of `main`. -/
def collectExplanations (runs : List (Str × List DisplayableDiagnostic)) : List (Str × Str) :=
  runs.foldl (fun m run => run.2.foldl explanationStep m) []

/-- The final comparator of `main`:
`primary_location.cmp(..).then_with(code.cmp(..)).then_with(rendered.cmp(..))`. -/
def aggLe (a b : AggregatedDiagnosticInstance) : Bool :=
  if strLt a.primary_location b.primary_location then true
  else if strLt b.primary_location a.primary_location then false
  else if optStrLt a.code b.code then true
  else if optStrLt b.code a.code then false
  else strLe a.rendered_message b.rendered_message

def aggLeP (a b : AggregatedDiagnosticInstance) : Prop := aggLe a b = true

instance : DecidableRel aggLeP := fun a b => inferInstanceAs (Decidable (_ = true))

/-- `into_values().collect()` followed by the final sort of `main`. -/
def sortedConsolidated (m : List (DiagnosticInstanceKey × AggregatedDiagnosticInstance)) :
    List AggregatedDiagnosticInstance :=
  List.insertionSort aggLeP (m.map Prod.snd)

/-- The consolidator end to end: all runs' records to the final sorted list. -/
def finalReport (runs : List (Str × List DisplayableDiagnostic)) :
    List AggregatedDiagnosticInstance :=
  sortedConsolidated (consolidateRuns runs)

/-- The per-record stream underlying the consolidation double loop: each
record of each run, paired with its run's configuration descriptor, in the
order the double loop visits them. -/
def runStream : List (Str × List DisplayableDiagnostic) → List (Str × DisplayableDiagnostic)
  | [] => []
  | run :: rest => run.2.map (fun d => (run.1, d)) ++ runStream rest

/-- The (primary location, code, rendered text) sort triple of an entry. -/
def aggTriple (a : AggregatedDiagnosticInstance) : Str × Option Str × Str :=
  (a.primary_location, a.code, a.rendered_message)

/-- The (primary location, code, rendered text) triple of a record. -/
def displayTriple (d : DisplayableDiagnostic) : Str × Option Str × Str :=
  (d.primary_location_of_diagnostic, d.code, d.rendered)

/-- The identity key an aggregated entry's own fields determine. -/
def keyOfAggregated (a : AggregatedDiagnosticInstance) : DiagnosticInstanceKey :=
  { level := a.level
    code := a.code
    primary_location := a.primary_location
    rendered_message := a.rendered_message
    implicated_files_signature := implicatedSignature a.implicated_third_party_files_details }

/-- Fold the consolidation step over a flattened record stream. -/
def streamFold (s : List (Str × DisplayableDiagnostic))
    (m : List (DiagnosticInstanceKey × AggregatedDiagnosticInstance)) :
    List (DiagnosticInstanceKey × AggregatedDiagnosticInstance) :=
  s.foldl (fun m₂ pr => consolidateStep pr.1 m₂ pr.2) m

/-- The records of a stream whose identity key is `k`, with their descriptors. -/
def matchingRecords (k : DiagnosticInstanceKey) (s : List (Str × DisplayableDiagnostic)) :
    List (Str × DisplayableDiagnostic) :=
  s.filter (fun pr => decide (instanceKeyOf pr.2 = k))

/-- Insert a list of descriptors into an aggregated entry's descriptor set. -/
def applyDescs (agg : AggregatedDiagnosticInstance) (descs : List Str) :
    AggregatedDiagnosticInstance :=
  descs.foldl (fun a desc => a.insertDesc desc) agg

/-- Fold sorted-set insertion over a descriptor list. -/
def foldInsert (l : List Str) : List Str :=
  l.foldl (fun s x => insertSortedStr x s) []

/-- The aggregated entry a stream produces for a key, described directly:
fields fixed from the first matching record, descriptor set collecting every
matching record's configuration descriptor. -/
def entryFor (k : DiagnosticInstanceKey) (s : List (Str × DisplayableDiagnostic)) :
    Option AggregatedDiagnosticInstance :=
  match matchingRecords k s with
  | [] => none
  | (desc, d) :: rest =>
    some (applyDescs ((newAggregated d desc).insertDesc desc) (rest.map Prod.fst))

/-- Canonical configuration key: flags sorted, then joined with spaces. -/
def canonicalKey (set : List Str) : Str :=
  joinStr [Char.ofNat 32] (List.insertionSort strLeP set)

/-- The deduplication pass at the end of `get_feature_sets_to_check`: keep a
set of seen canonical keys, keep only first-seen configurations, in order. -/
def dedupFeatureSets (sets : List (List Str)) : List (List Str) :=
  (sets.foldl
    (fun acc set =>
      let set_key := canonicalKey set
      if set_key ∈ acc.1 then acc else (acc.1 ++ [set_key], acc.2 ++ [set]))
    ([], [])).2

/-- Recursive restatement of `dedupFeatureSets` with an explicit seen set. -/
def dedupFrom (seen : List Str) : List (List Str) → List (List Str)
  | [] => []
  | s :: rest =>
    if canonicalKey s ∈ seen then dedupFrom seen rest
    else s :: dedupFrom (canonicalKey s :: seen) rest

/-- First-occurrence deduplication of a key list (keeps first-seen order). -/
def keyDedup : List Str → List Str
  | [] => []
  | k :: rest => k :: (keyDedup rest).filter (fun k₂ => decide (k₂ ≠ k))

/-- The manifest collaborator's possible states, as `get_feature_sets_to_check`
distinguishes them.  `parsed` hands the declared feature groups as an
association list in the order the deserialized map happens to yield its keys.
The code stores the groups in a `std` `HashMap`, whose iteration order is
arbitrary: it is NOT the declaration order of the manifest, and two reads of
the same manifest may yield the keys in different orders.  Every statement
about the builder's output order is therefore relative to this arbitrary
iteration order, never to declaration order, and statements quantifying over
permutations of the list range over the possible iteration orders of one and
the same declared group map. -/
inductive ManifestState where
  | missing
  | unreadable
  | unparsable
  | parsed (features : List (Str × List Str))

def flagNoDefault : Str := str "--no-default-features"

def flagFeatures : Str := str "--features"

def flagAllFeatures : Str := str "--all-features"

/-- Candidate configurations of Comprehensive Mode, before deduplication. -/
def comprehensiveCandidates (manifest : ManifestState) : List (List Str) :=
  [[]] ++
    match manifest with
    | .missing => []
    | .unreadable => []
    | .unparsable => []
    | .parsed features =>
      if features.isEmpty then []
      else
        [[flagNoDefault]] ++
          (features.map Prod.fst).filterMap
            (fun name =>
              if name = str "default" then none
              else some [flagNoDefault, flagFeatures, name]) ++
          [[flagAllFeatures]]

/-- Candidate configurations of Targeted Mode, before deduplication. -/
def targetedCandidates (targets : List Str) : List (List Str) :=
  if targets.isEmpty then [[]]
  else
    let features_arg_string := joinStr [Char.ofNat 44] targets
    [[flagFeatures, features_arg_string],
     [flagNoDefault, flagFeatures, features_arg_string],
     []]

/-- `get_feature_sets_to_check` from `main.rs`.  The body never produces an
error; every failure of the manifest collaborator is degraded in place. -/
def get_feature_sets_to_check (context_features : Option (List Str))
    (manifest : ManifestState) : Except Str (List (List Str)) :=
  let sets :=
    match context_features with
    | some targets => targetedCandidates targets
    | none => comprehensiveCandidates manifest
  .ok (dedupFeatureSets sets)

/-- The result triple of one successful `run_cargo_check_with_features` call. -/
structure CargoRunResult where
  diagnostics : List DisplayableDiagnostic
  implicated_files : List FsPath
  referencers : List (FsPath × List DiagnosticOriginInfo)

/-- The display descriptor of a configuration. -/
def featureDescOf (feature_args : List Str) : Str :=
  if feature_args.isEmpty then str "default features" else joinStr [Char.ofNat 32] feature_args

/-- The formatted failure text of the synthetic record emitted for a failed
probe. -/
def toolErrorMessage (feature_desc e : Str) : Str :=
  str "Error running cargo check with configuration " ++
    [Char.ofNat 39] ++ feature_desc ++ [Char.ofNat 39] ++ str ": " ++ e

/-- The synthetic `TOOL_ERROR` record pushed when a probe fails. -/
def toolErrorDiagnostic (feature_desc e : Str) : DisplayableDiagnostic :=
  { level := str "TOOL_ERROR"
    code := none
    code_explanation := none
    rendered := toolErrorMessage feature_desc e
    primary_location_of_diagnostic := str "N/A"
    implicated_third_party_files_details := [] }

/-- The session-wide accumulators of `main`. -/
structure SessionState where
  all_displayable_diagnostics : List (Str × List DisplayableDiagnostic)
  all_implicated_files_globally : List FsPath
  global_file_referencers : List (FsPath × List DiagnosticOriginInfo)

/-- `global_file_referencers.entry(file).or_default().extend(origins)`. -/
def mergeReferencers (glob run : List (FsPath × List DiagnosticOriginInfo)) :
    List (FsPath × List DiagnosticOriginInfo) :=
  run.foldl (fun g pr => pr.2.foldl (fun g₂ o => refInsert pr.1 o g₂) g) glob

/-- The per-configuration probe loop of `main`: one probe per configuration,
strictly in order; a failing probe contributes one synthetic record and the
loop continues. -/
def mainProbeLoop (probe : List Str → Except Str CargoRunResult) :
    List (List Str) → SessionState → SessionState
  | [], st => st
  | feature_args :: rest, st =>
    let feature_desc := featureDescOf feature_args
    let st₂ :=
      match probe feature_args with
      | .ok res =>
        { all_displayable_diagnostics :=
            st.all_displayable_diagnostics ++
              (if res.diagnostics.isEmpty then [] else [(feature_desc, res.diagnostics)])
          all_implicated_files_globally :=
            res.implicated_files.foldl (fun g p => insertFile p g)
              st.all_implicated_files_globally
          global_file_referencers :=
            mergeReferencers st.global_file_referencers res.referencers }
      | .error e =>
        { st with
            all_displayable_diagnostics :=
              st.all_displayable_diagnostics ++
                [(feature_desc, [toolErrorDiagnostic feature_desc e])] }
    mainProbeLoop probe rest st₂

/-- First non-empty explanation surfaced for a code in a record stream
(specification-side description for the explanation map). -/
def firstExplanationFor (c : Str) (stream : List (Str × DisplayableDiagnostic)) : Option Str :=
  (stream.filterMap
    (fun pr =>
      match pr.2.code, pr.2.code_explanation with
      | some c₂, some e => if c₂ = c ∧ ¬(trimS e).isEmpty then some e else none
      | _, _ => none)).head?

/-- Concrete record constructor used by concrete evaluations: fixed code and
location, chosen level, rendered text and implicated-file details. -/
def wRecord (level rendered : Str) (details : List (FsPath × Str)) : DisplayableDiagnostic :=
  { level := level
    code := none
    code_explanation := none
    rendered := rendered
    primary_location_of_diagnostic := str "loc"
    implicated_third_party_files_details := details }

def wPathA : FsPath := ⟨true, [str "a"]⟩

def wPathC : FsPath := ⟨true, [str "c"]⟩

/-- Two runs whose records have distinct sort triples, in one order. -/
def wRunsA : List (Str × List DisplayableDiagnostic) :=
  [(str "cfgA", [wRecord (str "error") (str "boom1") []]),
   (str "cfgB", [wRecord (str "warning") (str "boom2") []])]

/-- The same two runs, probed in the opposite order. -/
def wRunsB : List (Str × List DisplayableDiagnostic) :=
  [(str "cfgB", [wRecord (str "warning") (str "boom2") []]),
   (str "cfgA", [wRecord (str "error") (str "boom1") []])]

/-- The explanation-collection step folded over a flattened record stream. -/
def explFold (s : List (Str × DisplayableDiagnostic)) (m : List (Str × Str)) : List (Str × Str) :=
  s.foldl (fun m₂ pr => explanationStep m₂ pr.2) m

/-- A concrete file-system oracle: one project-relative span file whose
canonical path lies in the cargo registry and exists as a regular file. -/
def wFileSystem : FileSystem :=
  { canonicalize := fun p =>
      if p = ⟨true, [str "proj", str "dep.rs"]⟩ then
        some ⟨true, [str "home", str "registry", str "src", str "dep.rs"]⟩
      else none
    isFile := fun p =>
      decide (p = ⟨true, [str "home", str "registry", str "src", str "dep.rs"]⟩) }

/-- A concrete run environment over `wFileSystem`. -/
def wEnv : RunEnv :=
  { fs := wFileSystem
    current_dir := ⟨true, [str "proj"]⟩
    cargo_home_dir := some ⟨true, [str "home"]⟩
    feature_desc := str "default features" }

/-- A concrete primary span naming the relative path `dep.rs`, line 7. -/
def wSpan : RustcSpan := ⟨⟨false, [str "dep.rs"]⟩, true, 7⟩

/-! ### Order lemmas for the string model -/

theorem char_eq_of_not_lt {x y : Char} (h₁ : ¬ x < y) (h₂ : ¬ y < x) : x = y :=
  le_antisymm (not_lt.mp h₂) (not_lt.mp h₁)

theorem strLt_irrefl : ∀ a : Str, strLt a a = false := by
  intro a
  induction a with
  | nil => rfl
  | cons x s ih => simp [strLt, lt_irrefl, ih]

theorem strLt_asymm : ∀ a b : Str, strLt a b = true → strLt b a = false := by
  intro a
  induction a with
  | nil =>
    intro b h
    cases b with
    | nil => simpa [strLt] using h
    | cons y t => simp [strLt]
  | cons x s ih =>
    intro b h
    cases b with
    | nil => simp [strLt] at h
    | cons y t =>
      by_cases hxy : x < y
      · simp [strLt, hxy, lt_asymm hxy]
      · by_cases hyx : y < x
        · simp [strLt, hxy, hyx] at h
        · simp [strLt, hxy, hyx] at h ⊢
          exact ih t h

theorem strLt_trans : ∀ a b c : Str, strLt a b = true → strLt b c = true → strLt a c = true := by
  intro a
  induction a with
  | nil =>
    intro b c hab hbc
    cases b with
    | nil => simp [strLt] at hab
    | cons y t =>
      cases c with
      | nil => simp [strLt] at hbc
      | cons z u => simp [strLt]
  | cons x s ih =>
    intro b c hab hbc
    cases b with
    | nil => simp [strLt] at hab
    | cons y t =>
      cases c with
      | nil => simp [strLt] at hbc
      | cons z u =>
        by_cases hxy : x < y
        · by_cases hyz : y < z
          · simp [strLt, lt_trans hxy hyz]
          · by_cases hzy : z < y
            · simp [strLt, hyz, hzy] at hbc
            · have : y = z := char_eq_of_not_lt hyz hzy
              subst this
              simp [strLt, hxy]
        · by_cases hyx : y < x
          · simp [strLt, hxy, hyx] at hab
          · have hxey : x = y := char_eq_of_not_lt hxy hyx
            subst hxey
            by_cases hxz : x < z
            · simp [strLt, hxz]
            · by_cases hzx : z < x
              · simp [strLt, hxz, hzx] at hbc
              · have : x = z := char_eq_of_not_lt hxz hzx
                subst this
                simp [strLt, lt_irrefl] at hab hbc ⊢
                exact ih t u hab hbc

theorem strLt_conn : ∀ a b : Str, strLt a b = false → strLt b a = false → a = b := by
  intro a
  induction a with
  | nil =>
    intro b hab _
    cases b with
    | nil => rfl
    | cons y t => simp [strLt] at hab
  | cons x s ih =>
    intro b hab hba
    cases b with
    | nil => simp [strLt] at hba
    | cons y t =>
      by_cases hxy : x < y
      · simp [strLt, hxy] at hab
      · by_cases hyx : y < x
        · simp [strLt, hxy, hyx] at hba
        · have hxey : x = y := char_eq_of_not_lt hxy hyx
          subst hxey
          simp [strLt, lt_irrefl] at hab hba
          rw [ih t hab hba]

theorem strLe_total : ∀ a b : Str, strLe a b = true ∨ strLe b a = true := by
  intro a b
  unfold strLe
  cases h : strLt b a with
  | false => left; rfl
  | true => right; simp [strLt_asymm b a h]

theorem strLe_trans : ∀ a b c : Str, strLe a b = true → strLe b c = true → strLe a c = true := by
  intro a b c hab hbc
  unfold strLe at *
  simp only [Bool.not_eq_true', Bool.not_eq_false] at *
  cases hca : strLt c a with
  | false => rfl
  | true =>
    exfalso
    cases hbc₂ : strLt b c with
    | true =>
      have hba : strLt b a = true := strLt_trans b c a hbc₂ hca
      simp [hba] at hab
    | false =>
      have hbec : b = c := strLt_conn b c hbc₂ hbc
      subst hbec
      simp [hca] at hab

theorem strLe_antisymm : ∀ a b : Str, strLe a b = true → strLe b a = true → a = b := by
  intro a b hab hba
  unfold strLe at *
  simp only [Bool.not_eq_true'] at *
  exact strLt_conn a b hba hab

/-! ### Sorted-set insertion -/

theorem mem_insertSortedStr (a x : Str) (l : List Str) :
    x ∈ insertSortedStr a l ↔ x = a ∨ x ∈ l := by
  induction l with
  | nil => simp [insertSortedStr]
  | cons b t ih =>
    rw [insertSortedStr]
    split_ifs with hab hlt
    · subst hab
      simp only [List.mem_cons]
      tauto
    · simp only [List.mem_cons]
    · simp only [List.mem_cons, ih]
      tauto

theorem pairwise_insertSortedStr (a : Str) (l : List Str)
    (h : l.Pairwise (fun x y => strLt x y = true)) :
    (insertSortedStr a l).Pairwise (fun x y => strLt x y = true) := by
  induction l with
  | nil => simp [insertSortedStr]
  | cons b t ih =>
    rcases List.pairwise_cons.mp h with ⟨hb, ht⟩
    rw [insertSortedStr]
    split_ifs with hab hlt
    · subst hab
      exact h
    · refine List.pairwise_cons.mpr ⟨?_, h⟩
      intro x hx
      rcases List.mem_cons.mp hx with rfl | hx₂
      · exact hlt
      · exact strLt_trans a b x hlt (hb x hx₂)
    · refine List.pairwise_cons.mpr ⟨?_, ih ht⟩
      intro x hx
      rcases (mem_insertSortedStr a x t).mp hx with rfl | hx₂
      · cases hba : strLt b x with
        | true => rfl
        | false =>
          exact absurd (strLt_conn x b (Bool.eq_false_iff.mpr hlt) hba) hab
      · exact hb x hx₂

/-! ### Strictly sorted lists are determined by their members -/

theorem pairwise_ext_of_mem {α : Type _} {lt : α → α → Prop}
    (hasymm : ∀ a b, lt a b → lt b a → False) :
    ∀ l₁ l₂ : List α, l₁.Pairwise lt → l₂.Pairwise lt →
      (∀ x, x ∈ l₁ ↔ x ∈ l₂) → l₁ = l₂ := by
  intro l₁
  induction l₁ with
  | nil =>
    intro l₂ _ _ hmem
    cases l₂ with
    | nil => rfl
    | cons b u => exact absurd ((hmem b).mpr (List.mem_cons_self b u)) (List.not_mem_nil b)
  | cons a t ih =>
    intro l₂ h₁ h₂ hmem
    cases l₂ with
    | nil => exact absurd ((hmem a).mp (List.mem_cons_self a t)) (List.not_mem_nil a)
    | cons b u =>
      rcases List.pairwise_cons.mp h₁ with ⟨ha, ht⟩
      rcases List.pairwise_cons.mp h₂ with ⟨hbu, hu⟩
      have hab : a = b := by
        rcases List.mem_cons.mp ((hmem a).mp (List.mem_cons_self a t)) with h | hau
        · exact h
        · rcases List.mem_cons.mp ((hmem b).mpr (List.mem_cons_self b u)) with h | hbt
          · exact h.symm
          · exact (hasymm a b (ha b hbt) (hbu a hau)).elim
      subst hab
      have htu : ∀ x, x ∈ t ↔ x ∈ u := by
        intro x
        constructor
        · intro hx
          rcases List.mem_cons.mp ((hmem x).mp (List.mem_cons.mpr (Or.inr hx))) with rfl | hxu
          · exact (hasymm x x (ha x hx) (ha x hx)).elim
          · exact hxu
        · intro hx
          rcases List.mem_cons.mp ((hmem x).mpr (List.mem_cons.mpr (Or.inr hx))) with rfl | hxt
          · exact (hasymm x x (hbu x hx) (hbu x hx)).elim
          · exact hxt
      rw [ih u ht hu htu]

theorem strLt_asymm_prop : ∀ a b : Str, strLt a b = true → strLt b a = true → False := by
  intro a b h₁ h₂
  have := strLt_asymm a b h₁
  simp [this] at h₂

/-! ### Folding sorted-set insertion over a descriptor list -/

theorem foldInsert_go_mem :
    ∀ (l : List Str) (s : List Str) (x : Str),
      x ∈ l.foldl (fun s₂ y => insertSortedStr y s₂) s ↔ x ∈ s ∨ x ∈ l := by
  intro l
  induction l with
  | nil => simp
  | cons y t ih =>
    intro s x
    simp only [List.foldl_cons, ih, mem_insertSortedStr, List.mem_cons]
    tauto

theorem foldInsert_go_pairwise :
    ∀ (l : List Str) (s : List Str),
      s.Pairwise (fun x y => strLt x y = true) →
      (l.foldl (fun s₂ y => insertSortedStr y s₂) s).Pairwise (fun x y => strLt x y = true) := by
  intro l
  induction l with
  | nil => intro s h; simpa using h
  | cons y t ih =>
    intro s h
    exact ih (insertSortedStr y s) (pairwise_insertSortedStr y s h)

theorem mem_foldInsert (l : List Str) (x : Str) : x ∈ foldInsert l ↔ x ∈ l := by
  unfold foldInsert
  rw [foldInsert_go_mem]
  simp

theorem pairwise_foldInsert (l : List Str) :
    (foldInsert l).Pairwise (fun x y => strLt x y = true) :=
  foldInsert_go_pairwise l [] (List.Pairwise.nil)

theorem foldInsert_perm_eq {l₁ l₂ : List Str} (h : l₁.Perm l₂) :
    foldInsert l₁ = foldInsert l₂ := by
  refine pairwise_ext_of_mem strLt_asymm_prop _ _ (pairwise_foldInsert l₁)
    (pairwise_foldInsert l₂) ?_
  intro x
  rw [mem_foldInsert, mem_foldInsert]
  exact ⟨fun hx => h.mem_iff.mp hx, fun hx => h.mem_iff.mpr hx⟩

/-! ### Association-list map lemmas -/

theorem alookup_cons {κ ν : Type} [DecidableEq κ] (k k₂ : κ) (v : ν) (t : List (κ × ν)) :
    alookup k ((k₂, v) :: t) = if k₂ = k then some v else alookup k t := rfl

theorem alookup_append_of_some {κ ν : Type} [DecidableEq κ] {k : κ} {v : ν}
    {m₁ : List (κ × ν)} (m₂ : List (κ × ν)) (h : alookup k m₁ = some v) :
    alookup k (m₁ ++ m₂) = some v := by
  induction m₁ with
  | nil => simp [alookup] at h
  | cons p t ih =>
    obtain ⟨k₂, v₂⟩ := p
    rw [List.cons_append, alookup_cons]
    rw [alookup_cons] at h
    split_ifs at h ⊢ with hk
    · exact h
    · exact ih h

theorem alookup_append_of_none {κ ν : Type} [DecidableEq κ] {k : κ}
    {m₁ : List (κ × ν)} (m₂ : List (κ × ν)) (h : alookup k m₁ = none) :
    alookup k (m₁ ++ m₂) = alookup k m₂ := by
  induction m₁ with
  | nil => rfl
  | cons p t ih =>
    obtain ⟨k₂, v₂⟩ := p
    rw [List.cons_append, alookup_cons]
    rw [alookup_cons] at h
    split_ifs at h ⊢ with hk
    · exact ih h

theorem aupdate_cons {κ ν : Type} [DecidableEq κ] (k k₂ : κ) (f : ν → ν) (v : ν)
    (t : List (κ × ν)) :
    aupdate k f ((k₂, v) :: t) =
      if k₂ = k then (k₂, f v) :: t else (k₂, v) :: aupdate k f t := rfl

theorem alookup_aupdate_self {κ ν : Type} [DecidableEq κ] (k : κ) (f : ν → ν)
    (m : List (κ × ν)) : alookup k (aupdate k f m) = Option.map f (alookup k m) := by
  induction m with
  | nil => rfl
  | cons p t ih =>
    obtain ⟨k₂, v₂⟩ := p
    rw [aupdate_cons]
    split_ifs with hk
    · rw [alookup_cons, alookup_cons, if_pos hk, if_pos hk]
      rfl
    · rw [alookup_cons, alookup_cons, if_neg hk, if_neg hk]
      exact ih

theorem alookup_aupdate_ne {κ ν : Type} [DecidableEq κ] {k k₀ : κ} (h : k ≠ k₀)
    (f : ν → ν) (m : List (κ × ν)) : alookup k₀ (aupdate k f m) = alookup k₀ m := by
  induction m with
  | nil => rfl
  | cons p t ih =>
    obtain ⟨k₂, v₂⟩ := p
    rw [aupdate_cons]
    split_ifs with hk
    · subst hk
      rw [alookup_cons, alookup_cons, if_neg h, if_neg h]
    · rw [alookup_cons, alookup_cons]
      split_ifs with hk₂
      · rfl
      · exact ih

theorem keys_aupdate {κ ν : Type} [DecidableEq κ] (k : κ) (f : ν → ν) (m : List (κ × ν)) :
    (aupdate k f m).map Prod.fst = m.map Prod.fst := by
  induction m with
  | nil => rfl
  | cons p t ih =>
    obtain ⟨k₂, v₂⟩ := p
    rw [aupdate_cons]
    split_ifs with hk
    · rfl
    · rw [List.map_cons, List.map_cons, ih]

theorem alookup_none_iff {κ ν : Type} [DecidableEq κ] (k : κ) (m : List (κ × ν)) :
    alookup k m = none ↔ k ∉ m.map Prod.fst := by
  induction m with
  | nil => simp [alookup]
  | cons p t ih =>
    obtain ⟨k₂, v₂⟩ := p
    rw [alookup_cons]
    split_ifs with hk
    · simp [hk]
    · simp only [List.map_cons, List.mem_cons, ih]
      constructor
      · rintro h₂ (rfl | hmem)
        · exact hk rfl
        · exact h₂ hmem
      · intro h₂
        exact fun hmem => h₂ (Or.inr hmem)

theorem mem_iff_alookup {κ ν : Type} [DecidableEq κ] {k : κ} {v : ν} {m : List (κ × ν)}
    (hnd : (m.map Prod.fst).Nodup) : (k, v) ∈ m ↔ alookup k m = some v := by
  induction m with
  | nil => simp [alookup]
  | cons p t ih =>
    obtain ⟨k₂, v₂⟩ := p
    rw [List.map_cons, List.nodup_cons] at hnd
    rw [alookup_cons, List.mem_cons]
    split_ifs with hk
    · subst hk
      constructor
      · rintro (h | hmem)
        · rw [Prod.mk.injEq] at h
          rw [h.2]
        · exact absurd (List.mem_map_of_mem Prod.fst hmem) hnd.1
      · intro h
        left
        rw [Option.some_inj] at h
        rw [h]
    · rw [ih hnd.2]
      constructor
      · rintro (h | h)
        · rw [Prod.mk.injEq] at h
          exact absurd h.1.symm hk
        · exact h
      · exact fun h => Or.inr h

/-! ### Consolidation-step lemmas -/

theorem keys_consolidateStep (feature_desc : Str)
    (m : List (DiagnosticInstanceKey × AggregatedDiagnosticInstance))
    (d : DisplayableDiagnostic) :
    (consolidateStep feature_desc m d).map Prod.fst =
      if alookup (instanceKeyOf d) m = none then m.map Prod.fst ++ [instanceKeyOf d]
      else m.map Prod.fst := by
  unfold consolidateStep
  cases h : alookup (instanceKeyOf d) m with
  | some a => simp [h, keys_aupdate]
  | none => simp [h, keys_aupdate]

theorem nodup_keys_consolidateStep (feature_desc : Str)
    {m : List (DiagnosticInstanceKey × AggregatedDiagnosticInstance)}
    (d : DisplayableDiagnostic) (hnd : (m.map Prod.fst).Nodup) :
    ((consolidateStep feature_desc m d).map Prod.fst).Nodup := by
  rw [keys_consolidateStep]
  split_ifs with h
  · refine List.Nodup.append hnd (List.nodup_singleton _) ?_
    intro k hk hk₂
    rw [List.mem_singleton] at hk₂
    subst hk₂
    exact (alookup_none_iff _ _).mp h hk
  · exact hnd

theorem alookup_consolidateStep_self (feature_desc : Str)
    (m : List (DiagnosticInstanceKey × AggregatedDiagnosticInstance))
    (d : DisplayableDiagnostic) :
    alookup (instanceKeyOf d) (consolidateStep feature_desc m d) =
      some ((match alookup (instanceKeyOf d) m with
             | some a => a
             | none => newAggregated d feature_desc).insertDesc feature_desc) := by
  unfold consolidateStep
  cases h : alookup (instanceKeyOf d) m with
  | some a =>
    simp only [h]
    rw [alookup_aupdate_self, h]
    rfl
  | none =>
    simp only [h]
    rw [alookup_aupdate_self, alookup_append_of_none _ h, alookup_cons, if_pos rfl]
    rfl

theorem alookup_consolidateStep_ne (feature_desc : Str)
    {k : DiagnosticInstanceKey}
    (m : List (DiagnosticInstanceKey × AggregatedDiagnosticInstance))
    {d : DisplayableDiagnostic} (h : instanceKeyOf d ≠ k) :
    alookup k (consolidateStep feature_desc m d) = alookup k m := by
  unfold consolidateStep
  cases h₂ : alookup (instanceKeyOf d) m with
  | some a =>
    simp only [h₂]
    exact alookup_aupdate_ne h _ _
  | none =>
    simp only [h₂]
    rw [alookup_aupdate_ne h]
    cases h₃ : alookup k m with
    | some v => exact alookup_append_of_some _ h₃
    | none =>
      rw [alookup_append_of_none _ h₃, alookup_cons]
      rw [if_neg h]
      rfl

/-! ### The stream-level characterization of the consolidated map -/

theorem matchingRecords_cons (k : DiagnosticInstanceKey) (pr : Str × DisplayableDiagnostic)
    (s : List (Str × DisplayableDiagnostic)) :
    matchingRecords k (pr :: s) =
      if instanceKeyOf pr.2 = k then pr :: matchingRecords k s else matchingRecords k s := by
  by_cases h : instanceKeyOf pr.2 = k
  · rw [if_pos h]
    unfold matchingRecords
    rw [List.filter_cons, if_pos (decide_eq_true h)]
  · rw [if_neg h]
    unfold matchingRecords
    rw [List.filter_cons, if_neg (by simpa using h)]

theorem applyDescs_cons (agg : AggregatedDiagnosticInstance) (desc : Str) (ds : List Str) :
    applyDescs agg (desc :: ds) = applyDescs (agg.insertDesc desc) ds := rfl

theorem streamFold_nil (m : List (DiagnosticInstanceKey × AggregatedDiagnosticInstance)) :
    streamFold [] m = m := rfl

theorem streamFold_cons (pr : Str × DisplayableDiagnostic)
    (s : List (Str × DisplayableDiagnostic))
    (m : List (DiagnosticInstanceKey × AggregatedDiagnosticInstance)) :
    streamFold (pr :: s) m = streamFold s (consolidateStep pr.1 m pr.2) := rfl

theorem alookup_streamFold (s : List (Str × DisplayableDiagnostic)) :
    ∀ (m : List (DiagnosticInstanceKey × AggregatedDiagnosticInstance))
      (k : DiagnosticInstanceKey),
      alookup k (streamFold s m) =
        match alookup k m with
        | some a => some (applyDescs a ((matchingRecords k s).map Prod.fst))
        | none => entryFor k s := by
  induction s with
  | nil =>
    intro m k
    rw [streamFold_nil]
    cases h : alookup k m with
    | some a => simp [matchingRecords, applyDescs, entryFor]
    | none => simp [matchingRecords, entryFor]
  | cons pr rest ih =>
    intro m k
    obtain ⟨desc, d⟩ := pr
    rw [streamFold_cons, ih]
    by_cases hk : instanceKeyOf d = k
    · subst hk
      rw [alookup_consolidateStep_self]
      rw [matchingRecords_cons, if_pos rfl]
      cases h : alookup (instanceKeyOf d) m with
      | some a =>
        simp only [h, List.map_cons, applyDescs_cons]
      | none =>
        simp only [h, entryFor, matchingRecords_cons, eq_self_iff_true, if_true]
    · rw [alookup_consolidateStep_ne _ _ hk]
      rw [matchingRecords_cons, if_neg hk]
      cases h : alookup k m with
      | some a => simp only [h]
      | none =>
        simp only [h, entryFor, matchingRecords_cons, if_neg hk]

theorem nodup_keys_streamFold (s : List (Str × DisplayableDiagnostic)) :
    ∀ (m : List (DiagnosticInstanceKey × AggregatedDiagnosticInstance)),
      (m.map Prod.fst).Nodup → ((streamFold s m).map Prod.fst).Nodup := by
  induction s with
  | nil => intro m h; exact h
  | cons pr rest ih =>
    intro m h
    rw [streamFold_cons]
    exact ih _ (nodup_keys_consolidateStep pr.1 pr.2 h)

theorem consolidateRuns_eq_streamFold (runs : List (Str × List DisplayableDiagnostic)) :
    consolidateRuns runs = streamFold (runStream runs) [] := by
  suffices h : ∀ (m : List (DiagnosticInstanceKey × AggregatedDiagnosticInstance)),
      runs.foldl (fun m₂ run => run.2.foldl (consolidateStep run.1) m₂) m =
        streamFold (runStream runs) m by
    exact h []
  induction runs with
  | nil => intro m; rfl
  | cons run rest ih =>
    intro m
    rw [List.foldl_cons, ih]
    have hstream : runStream (run :: rest) = run.2.map (fun d => (run.1, d)) ++ runStream rest :=
      rfl
    rw [hstream]
    unfold streamFold
    rw [List.foldl_append, List.foldl_map]

theorem alookup_consolidateRuns (runs : List (Str × List DisplayableDiagnostic))
    (k : DiagnosticInstanceKey) :
    alookup k (consolidateRuns runs) = entryFor k (runStream runs) := by
  rw [consolidateRuns_eq_streamFold, alookup_streamFold]
  rfl

theorem nodup_keys_consolidateRuns (runs : List (Str × List DisplayableDiagnostic)) :
    ((consolidateRuns runs).map Prod.fst).Nodup := by
  rw [consolidateRuns_eq_streamFold]
  exact nodup_keys_streamFold _ [] List.nodup_nil

theorem entryFor_eq_none_iff (k : DiagnosticInstanceKey)
    (s : List (Str × DisplayableDiagnostic)) :
    entryFor k s = none ↔ ∀ pr ∈ s, instanceKeyOf pr.2 ≠ k := by
  unfold entryFor
  cases h : matchingRecords k s with
  | nil =>
    simp only [true_iff]
    intro pr hpr hk
    have : pr ∈ matchingRecords k s := by
      unfold matchingRecords
      rw [List.mem_filter]
      exact ⟨hpr, by simpa using hk⟩
    rw [h] at this
    exact List.not_mem_nil pr this
  | cons q t =>
    obtain ⟨desc, d⟩ := q
    simp only [reduceCtorEq, false_iff, not_forall]
    have hq : (desc, d) ∈ matchingRecords k s := by rw [h]; exact List.mem_cons_self _ _
    unfold matchingRecords at hq
    rw [List.mem_filter] at hq
    refine ⟨(desc, d), hq.1, ?_⟩
    simpa using hq.2

/-! ### The aggregated entry for a key, described and permutation-invariant -/

theorem insertSortedStr_self (a : Str) : insertSortedStr a [a] = [a] := by
  rw [insertSortedStr, if_pos rfl]

theorem applyDescs_eq (ds : List Str) :
    ∀ agg : AggregatedDiagnosticInstance,
      applyDescs agg ds =
        { agg with
            feature_set_descriptors :=
              ds.foldl (fun s x => insertSortedStr x s) agg.feature_set_descriptors } := by
  induction ds with
  | nil => intro agg; rfl
  | cons desc rest ih =>
    intro agg
    rw [applyDescs_cons, ih]
    rfl

theorem entryFor_eq {k : DiagnosticInstanceKey} {s : List (Str × DisplayableDiagnostic)}
    {desc : Str} {d : DisplayableDiagnostic} {rest : List (Str × DisplayableDiagnostic)}
    (h : matchingRecords k s = (desc, d) :: rest) :
    entryFor k s = some
      { level := d.level
        code := d.code
        rendered_message := d.rendered
        primary_location := d.primary_location_of_diagnostic
        implicated_third_party_files_details := d.implicated_third_party_files_details
        feature_set_descriptors := foldInsert ((matchingRecords k s).map Prod.fst) } := by
  unfold entryFor
  rw [h]
  show some (applyDescs ((newAggregated d desc).insertDesc desc) (rest.map Prod.fst)) = _
  rw [applyDescs_eq]
  have hdesc :
      ((newAggregated d desc).insertDesc desc).feature_set_descriptors = [desc] := by
    show insertSortedStr desc (insertSortedStr desc []) = [desc]
    rw [show insertSortedStr desc [] = [desc] from rfl, insertSortedStr_self]
  rw [Option.some_inj]
  show ({ (newAggregated d desc).insertDesc desc with
      feature_set_descriptors :=
        (rest.map Prod.fst).foldl (fun s x => insertSortedStr x s)
          ((newAggregated d desc).insertDesc desc).feature_set_descriptors } :
      AggregatedDiagnosticInstance) = _
  rw [hdesc]
  rfl

theorem entryFor_congr {s₁ s₂ : List (Str × DisplayableDiagnostic)} (hp : s₁.Perm s₂)
    (H1 : ∀ p ∈ s₁, ∀ q ∈ s₁, instanceKeyOf p.2 = instanceKeyOf q.2 →
      p.2.implicated_third_party_files_details = q.2.implicated_third_party_files_details)
    (k : DiagnosticInstanceKey) : entryFor k s₁ = entryFor k s₂ := by
  have hpf : (matchingRecords k s₁).Perm (matchingRecords k s₂) := hp.filter _
  cases h₁ : matchingRecords k s₁ with
  | nil =>
    cases h₂ : matchingRecords k s₂ with
    | nil =>
      unfold entryFor
      rw [h₁, h₂]
    | cons p₂ r₂ =>
      rw [h₁, h₂] at hpf
      exact absurd hpf.symm.eq_nil (by simp)
  | cons p₁ r₁ =>
    cases h₂ : matchingRecords k s₂ with
    | nil =>
      rw [h₁, h₂] at hpf
      exact absurd hpf.eq_nil (by simp)
    | cons p₂ r₂ =>
      obtain ⟨c₁, d₁⟩ := p₁
      obtain ⟨c₂, d₂⟩ := p₂
      have hin₁ : (c₁, d₁) ∈ matchingRecords k s₁ := by
        rw [h₁]; exact List.mem_cons_self _ _
      have hin₂ : (c₂, d₂) ∈ matchingRecords k s₂ := by
        rw [h₂]; exact List.mem_cons_self _ _
      have hk₁ : instanceKeyOf d₁ = k := by
        have := (List.mem_filter.mp hin₁).2
        simpa using this
      have hk₂ : instanceKeyOf d₂ = k := by
        have := (List.mem_filter.mp hin₂).2
        simpa using this
      have hmem₁ : (c₁, d₁) ∈ s₁ := (List.mem_filter.mp hin₁).1
      have hmem₂ : (c₂, d₂) ∈ s₁ := hp.symm.subset (List.mem_filter.mp hin₂).1
      have hkk : instanceKeyOf d₁ = instanceKeyOf d₂ := hk₁.trans hk₂.symm
      have hlevel : d₁.level = d₂.level := congrArg DiagnosticInstanceKey.level hkk
      have hcode : d₁.code = d₂.code := congrArg DiagnosticInstanceKey.code hkk
      have hloc : d₁.primary_location_of_diagnostic = d₂.primary_location_of_diagnostic :=
        congrArg DiagnosticInstanceKey.primary_location hkk
      have hrend : d₁.rendered = d₂.rendered :=
        congrArg DiagnosticInstanceKey.rendered_message hkk
      have himp : d₁.implicated_third_party_files_details =
          d₂.implicated_third_party_files_details := H1 _ hmem₁ _ hmem₂ hkk
      have hdescs : foldInsert ((matchingRecords k s₁).map Prod.fst) =
          foldInsert ((matchingRecords k s₂).map Prod.fst) :=
        foldInsert_perm_eq (hpf.map Prod.fst)
      rw [entryFor_eq h₁, entryFor_eq h₂, hlevel, hcode, hloc, hrend, himp, hdescs]

/-! ### The final comparator -/

theorem optStrLt_asymm_prop : ∀ x y : Option Str, optStrLt x y = true → optStrLt y x = true → False := by
  intro x y h₁ h₂
  cases x <;> cases y <;> simp [optStrLt] at h₁ h₂ <;> exact strLt_asymm_prop _ _ h₁ h₂

theorem optStrLt_conn : ∀ x y : Option Str, optStrLt x y = false → optStrLt y x = false → x = y := by
  intro x y h₁ h₂
  cases x <;> cases y <;> simp [optStrLt] at h₁ h₂ ⊢
  exact strLt_conn _ _ h₁ h₂

theorem optStrLt_trans : ∀ x y z : Option Str,
    optStrLt x y = true → optStrLt y z = true → optStrLt x z = true := by
  intro x y z h₁ h₂
  cases x <;> cases y <;> cases z <;> simp [optStrLt] at h₁ h₂ ⊢
  exact strLt_trans _ _ _ h₁ h₂

theorem optStrLt_irrefl : ∀ x : Option Str, optStrLt x x = false := by
  intro x
  cases x with
  | none => rfl
  | some a => simpa [optStrLt] using strLt_irrefl a

theorem aggLe_iff (a b : AggregatedDiagnosticInstance) :
    aggLe a b = true ↔
      (strLt a.primary_location b.primary_location = true ∨
        (a.primary_location = b.primary_location ∧
          (optStrLt a.code b.code = true ∨
            (a.code = b.code ∧ strLe a.rendered_message b.rendered_message = true)))) := by
  unfold aggLe
  cases h₁ : strLt a.primary_location b.primary_location with
  | true => simp
  | false =>
    cases h₂ : strLt b.primary_location a.primary_location with
    | true =>
      have hne : a.primary_location ≠ b.primary_location := by
        intro he
        rw [he] at h₂
        simp [strLt_irrefl] at h₂
      simp [hne]
    | false =>
      have heq : a.primary_location = b.primary_location := strLt_conn _ _ h₁ h₂
      cases h₃ : optStrLt a.code b.code with
      | true => simp [heq]
      | false =>
        cases h₄ : optStrLt b.code a.code with
        | true =>
          have hcne : a.code ≠ b.code := by
            intro he
            rw [he] at h₄
            simp [optStrLt_irrefl] at h₄
          simp [heq, hcne]
        | false =>
          have hceq : a.code = b.code := optStrLt_conn _ _ h₃ h₄
          simp [heq, hceq]

theorem aggLe_total (a b : AggregatedDiagnosticInstance) :
    aggLe a b = true ∨ aggLe b a = true := by
  rw [aggLe_iff, aggLe_iff]
  cases h₁ : strLt a.primary_location b.primary_location with
  | true => exact Or.inl (Or.inl rfl)
  | false =>
    cases h₂ : strLt b.primary_location a.primary_location with
    | true => exact Or.inr (Or.inl rfl)
    | false =>
      have heq : a.primary_location = b.primary_location := strLt_conn _ _ h₁ h₂
      cases h₃ : optStrLt a.code b.code with
      | true => exact Or.inl (Or.inr ⟨heq, Or.inl rfl⟩)
      | false =>
        cases h₄ : optStrLt b.code a.code with
        | true => exact Or.inr (Or.inr ⟨heq.symm, Or.inl rfl⟩)
        | false =>
          have hceq : a.code = b.code := optStrLt_conn _ _ h₃ h₄
          rcases strLe_total a.rendered_message b.rendered_message with h | h
          · exact Or.inl (Or.inr ⟨heq, Or.inr ⟨hceq, h⟩⟩)
          · exact Or.inr (Or.inr ⟨heq.symm, Or.inr ⟨hceq.symm, h⟩⟩)

theorem aggLe_trans (a b c : AggregatedDiagnosticInstance)
    (hab : aggLe a b = true) (hbc : aggLe b c = true) : aggLe a c = true := by
  rw [aggLe_iff] at hab hbc ⊢
  rcases hab with h₁ | ⟨he₁, h₁⟩
  · rcases hbc with h₂ | ⟨he₂, h₂⟩
    · exact Or.inl (strLt_trans _ _ _ h₁ h₂)
    · exact Or.inl (he₂ ▸ h₁)
  · rcases hbc with h₂ | ⟨he₂, h₂⟩
    · exact Or.inl (he₁ ▸ h₂)
    · refine Or.inr ⟨he₁.trans he₂, ?_⟩
      rcases h₁ with h₁ | ⟨hc₁, h₁⟩
      · rcases h₂ with h₂ | ⟨hc₂, h₂⟩
        · exact Or.inl (optStrLt_trans _ _ _ h₁ h₂)
        · exact Or.inl (hc₂ ▸ h₁)
      · rcases h₂ with h₂ | ⟨hc₂, h₂⟩
        · exact Or.inl (hc₁ ▸ h₂)
        · exact Or.inr ⟨hc₁.trans hc₂, strLe_trans _ _ _ h₁ h₂⟩

theorem aggLe_antisymm_triple (a b : AggregatedDiagnosticInstance)
    (hab : aggLe a b = true) (hba : aggLe b a = true) : aggTriple a = aggTriple b := by
  rw [aggLe_iff] at hab hba
  rcases hab with h₁ | ⟨he₁, h₁⟩
  · rcases hba with h₂ | ⟨he₂, h₂⟩
    · exact (strLt_asymm_prop _ _ h₁ h₂).elim
    · rw [he₂] at h₁
      simp [strLt_irrefl] at h₁
  · rcases hba with h₂ | ⟨he₂, h₂⟩
    · rw [he₁] at h₂
      simp [strLt_irrefl] at h₂
    · rcases h₁ with h₁ | ⟨hc₁, h₁⟩
      · rcases h₂ with h₂ | ⟨hc₂, h₂⟩
        · exact (optStrLt_asymm_prop _ _ h₁ h₂).elim
        · rw [hc₂] at h₁
          simp [optStrLt_irrefl] at h₁
      · rcases h₂ with h₂ | ⟨hc₂, h₂⟩
        · rw [hc₁] at h₂
          simp [optStrLt_irrefl] at h₂
        · have hrend := strLe_antisymm _ _ h₁ h₂
          unfold aggTriple
          rw [he₁, hc₁, hrend]

instance : IsTotal AggregatedDiagnosticInstance aggLeP :=
  ⟨fun a b => aggLe_total a b⟩

instance : IsTrans AggregatedDiagnosticInstance aggLeP :=
  ⟨fun a b c => aggLe_trans a b c⟩

theorem sortedConsolidated_sorted
    (m : List (DiagnosticInstanceKey × AggregatedDiagnosticInstance)) :
    List.Sorted aggLeP (sortedConsolidated m) :=
  List.sorted_insertionSort aggLeP (m.map Prod.snd)

theorem mem_sortedConsolidated
    (m : List (DiagnosticInstanceKey × AggregatedDiagnosticInstance))
    (a : AggregatedDiagnosticInstance) :
    a ∈ sortedConsolidated m ↔ a ∈ m.map Prod.snd :=
  (List.perm_insertionSort aggLeP (m.map Prod.snd)).mem_iff

/-! ### Keys, entries and triples of the consolidated map -/

theorem entryFor_some_key {k : DiagnosticInstanceKey} {s : List (Str × DisplayableDiagnostic)}
    {a : AggregatedDiagnosticInstance} (h : entryFor k s = some a) :
    keyOfAggregated a = k := by
  cases hm : matchingRecords k s with
  | nil =>
    unfold entryFor at h
    rw [hm] at h
    exact absurd h (by simp)
  | cons p rest =>
    obtain ⟨c, d⟩ := p
    rw [entryFor_eq hm] at h
    have hk : instanceKeyOf d = k := by
      have hin : (c, d) ∈ matchingRecords k s := by
        rw [hm]; exact List.mem_cons_self _ _
      have := (List.mem_filter.mp hin).2
      simpa using this
    have ha := Option.some_inj.mp h
    rw [← ha, ← hk]
    rfl

theorem entryFor_some_exists {k : DiagnosticInstanceKey}
    {s : List (Str × DisplayableDiagnostic)} {a : AggregatedDiagnosticInstance}
    (h : entryFor k s = some a) : ∃ pr ∈ s, instanceKeyOf pr.2 = k := by
  by_contra hnone
  push_neg at hnone
  rw [(entryFor_eq_none_iff k s).mpr hnone] at h
  exact Option.noConfusion h

theorem aggTriple_of_key {a : AggregatedDiagnosticInstance} {k : DiagnosticInstanceKey}
    (h : keyOfAggregated a = k) :
    aggTriple a = (k.primary_location, k.code, k.rendered_message) := by
  subst h
  rfl

theorem mem_keys_consolidateRuns (runs : List (Str × List DisplayableDiagnostic))
    (k : DiagnosticInstanceKey) :
    k ∈ (consolidateRuns runs).map Prod.fst ↔
      ∃ pr ∈ runStream runs, instanceKeyOf pr.2 = k := by
  constructor
  · intro hmem
    by_contra hnone
    push_neg at hnone
    have h₁ : alookup k (consolidateRuns runs) = none := by
      rw [alookup_consolidateRuns]
      exact (entryFor_eq_none_iff k (runStream runs)).mpr hnone
    exact (alookup_none_iff _ _).mp h₁ hmem
  · intro hex
    by_contra hmem
    have h₁ : alookup k (consolidateRuns runs) = none := (alookup_none_iff _ _).mpr hmem
    rw [alookup_consolidateRuns] at h₁
    obtain ⟨pr, hpr, hk⟩ := hex
    exact (entryFor_eq_none_iff k (runStream runs)).mp h₁ pr hpr hk

theorem pairwise_triple_ne (runs : List (Str × List DisplayableDiagnostic))
    (H2 : ∀ p ∈ runStream runs, ∀ q ∈ runStream runs,
      instanceKeyOf p.2 ≠ instanceKeyOf q.2 → displayTriple p.2 ≠ displayTriple q.2) :
    ((consolidateRuns runs).map Prod.snd).Pairwise
      (fun a b => aggTriple a ≠ aggTriple b) := by
  rw [List.pairwise_map]
  have hnd : ((consolidateRuns runs).map Prod.fst).Nodup := nodup_keys_consolidateRuns runs
  have hpairs : (consolidateRuns runs).Pairwise (fun p q => p.1 ≠ q.1) := by
    rw [List.Nodup, List.pairwise_map] at hnd
    exact hnd
  refine List.Pairwise.imp_of_mem ?_ hpairs
  intro p q hp hq hne
  obtain ⟨k₁, a₁⟩ := p
  obtain ⟨k₂, a₂⟩ := q
  have hl₁ : alookup k₁ (consolidateRuns runs) = some a₁ := (mem_iff_alookup hnd).mp hp
  have hl₂ : alookup k₂ (consolidateRuns runs) = some a₂ := (mem_iff_alookup hnd).mp hq
  rw [alookup_consolidateRuns] at hl₁ hl₂
  have hk₁ := entryFor_some_key hl₁
  have hk₂ := entryFor_some_key hl₂
  obtain ⟨p₁, hp₁, hpk₁⟩ := entryFor_some_exists hl₁
  obtain ⟨p₂, hp₂, hpk₂⟩ := entryFor_some_exists hl₂
  have hdiff : instanceKeyOf p₁.2 ≠ instanceKeyOf p₂.2 := by
    rw [hpk₁, hpk₂]
    exact hne
  have htr := H2 p₁ hp₁ p₂ hp₂ hdiff
  intro heq
  apply htr
  have ht₁ : displayTriple p₁.2 = aggTriple a₁ := by
    rw [aggTriple_of_key hk₁, ← hpk₁]
    rfl
  have ht₂ : displayTriple p₂.2 = aggTriple a₂ := by
    rw [aggTriple_of_key hk₂, ← hpk₂]
    rfl
  rw [ht₁, ht₂, heq]

theorem runStream_perm {runs₁ runs₂ : List (Str × List DisplayableDiagnostic)}
    (h : runs₁.Perm runs₂) : (runStream runs₁).Perm (runStream runs₂) := by
  induction h with
  | nil => exact List.Perm.refl _
  | cons x h₂ ih =>
    show (x.2.map _ ++ runStream _).Perm (x.2.map _ ++ runStream _)
    exact ih.append_left _
  | swap x y l =>
    have hy : runStream (y :: x :: l) =
        y.2.map (fun d => (y.1, d)) ++ (x.2.map (fun d => (x.1, d)) ++ runStream l) := rfl
    have hx : runStream (x :: y :: l) =
        x.2.map (fun d => (x.1, d)) ++ (y.2.map (fun d => (y.1, d)) ++ runStream l) := rfl
    rw [hy, hx, ← List.append_assoc, ← List.append_assoc]
    exact List.perm_append_comm.append_right _
  | trans h₁ h₂ ih₁ ih₂ => exact ih₁.trans ih₂

theorem mem_values_iff_alookup {κ ν : Type} [DecidableEq κ] {m : List (κ × ν)}
    (hnd : (m.map Prod.fst).Nodup) (a : ν) :
    a ∈ m.map Prod.snd ↔ ∃ k, alookup k m = some a := by
  constructor
  · intro h
    obtain ⟨p, hp, hpa⟩ := List.mem_map.mp h
    obtain ⟨k, v⟩ := p
    refine ⟨k, ?_⟩
    rw [← (mem_iff_alookup hnd)]
    rw [← hpa]
    exact hp
  · rintro ⟨k, hk⟩
    exact List.mem_map.mpr ⟨(k, a), (mem_iff_alookup hnd).mpr hk, rfl⟩

/-! ### Claim C1 -/

/-- Claim C1 (counterexample).  Two per-diagnostic records identical in level,
code, primary location and rendered text, whose implicated-file lists differ
(`[(/a,"b"), (/c,"d")]` against `[(/a,"b;/c:d")]`), nevertheless produce ONE
aggregated entry, because their `';'`-joined signatures collide; the claim's
"two distinct AggregatedDiagnostic entries" is false for them. -/
theorem c1_counterexample :
    (wRecord (str "error") (str "boom") [(wPathA, str "b"), (wPathC, str "d")]).level =
        (wRecord (str "error") (str "boom") [(wPathA, str "b;/c:d")]).level ∧
    (wRecord (str "error") (str "boom") [(wPathA, str "b"), (wPathC, str "d")]).code =
        (wRecord (str "error") (str "boom") [(wPathA, str "b;/c:d")]).code ∧
    (wRecord (str "error") (str "boom")
          [(wPathA, str "b"), (wPathC, str "d")]).primary_location_of_diagnostic =
        (wRecord (str "error") (str "boom") [(wPathA, str "b;/c:d")]).primary_location_of_diagnostic ∧
    (wRecord (str "error") (str "boom") [(wPathA, str "b"), (wPathC, str "d")]).rendered =
        (wRecord (str "error") (str "boom") [(wPathA, str "b;/c:d")]).rendered ∧
    (wRecord (str "error") (str "boom")
          [(wPathA, str "b"), (wPathC, str "d")]).implicated_third_party_files_details ≠
        (wRecord (str "error") (str "boom") [(wPathA, str "b;/c:d")]).implicated_third_party_files_details ∧
    (consolidateRuns
        [(str "cfgA", [wRecord (str "error") (str "boom") [(wPathA, str "b"), (wPathC, str "d")]]),
         (str "cfgB", [wRecord (str "error") (str "boom") [(wPathA, str "b;/c:d")]])]).length = 1 := by
  decide

/-- Claim C1 (amended).  The consolidator merges two occurrences into one
`AggregatedDiagnostic` iff their `DiagnosticInstanceKey`s are equal: the map's
keys are duplicate-free, a key is present iff some record of the stream bears
it, and records identical in level, code, location and rendered text whose
implicated-files *signatures* differ get distinct keys, hence two distinct
entries.  (Different implicated-file lists alone do not suffice: their
signatures may collide, see the counterexample.) -/
theorem c1_merge_iff_key (runs : List (Str × List DisplayableDiagnostic)) :
    ((consolidateRuns runs).map Prod.fst).Nodup ∧
    (∀ k : DiagnosticInstanceKey,
      k ∈ (consolidateRuns runs).map Prod.fst ↔
        ∃ pr ∈ runStream runs, instanceKeyOf pr.2 = k) ∧
    (∀ p q : Str × DisplayableDiagnostic,
      p.2.level = q.2.level → p.2.code = q.2.code →
      p.2.primary_location_of_diagnostic = q.2.primary_location_of_diagnostic →
      p.2.rendered = q.2.rendered →
      get_implicated_files_signature p.2 ≠ get_implicated_files_signature q.2 →
      instanceKeyOf p.2 ≠ instanceKeyOf q.2) := by
  refine ⟨nodup_keys_consolidateRuns runs, mem_keys_consolidateRuns runs, ?_⟩
  intro p q _ _ _ _ hsig heq
  exact hsig (congrArg DiagnosticInstanceKey.implicated_files_signature heq)

/-! ### Claim C7 -/

/-- Claim C7 (counterexample).  Two probe runs whose records agree on the
sort triple (location, code, rendered) but differ in level give two distinct
aggregated entries that tie under the final comparator; swapping the probe
order swaps them in the final sorted output, so the final presentation is NOT
independent of probe order. -/
theorem c7_counterexample :
    ([(str "cfgA", [wRecord (str "error") (str "boom") []]),
      (str "cfgB", [wRecord (str "warning") (str "boom") []])] :
        List (Str × List DisplayableDiagnostic)).Perm
      [(str "cfgB", [wRecord (str "warning") (str "boom") []]),
       (str "cfgA", [wRecord (str "error") (str "boom") []])] ∧
    finalReport
        [(str "cfgA", [wRecord (str "error") (str "boom") []]),
         (str "cfgB", [wRecord (str "warning") (str "boom") []])] ≠
      finalReport
        [(str "cfgB", [wRecord (str "warning") (str "boom") []]),
         (str "cfgA", [wRecord (str "error") (str "boom") []])] := by
  constructor
  · decide
  · decide

/-- Claim C7 (amended).  The consolidator's final output is always sorted
ascending by (primary location, code, rendered text); and it is independent of
probe order provided (H1) records with equal identity keys carry equal
implicated-file lists and (H2) records with distinct identity keys differ in
the (location, code, rendered) sort triple — without H2 two distinct entries
can tie under the comparator and their relative order follows probe order,
see the counterexample. -/
theorem c7_sorted_and_probe_order_independent
    (runs₁ runs₂ : List (Str × List DisplayableDiagnostic))
    (hperm : runs₁.Perm runs₂)
    (H1 : ∀ p ∈ runStream runs₁, ∀ q ∈ runStream runs₁,
      instanceKeyOf p.2 = instanceKeyOf q.2 →
      p.2.implicated_third_party_files_details = q.2.implicated_third_party_files_details)
    (H2 : ∀ p ∈ runStream runs₁, ∀ q ∈ runStream runs₁,
      instanceKeyOf p.2 ≠ instanceKeyOf q.2 → displayTriple p.2 ≠ displayTriple q.2) :
    List.Sorted aggLeP (finalReport runs₁) ∧ finalReport runs₁ = finalReport runs₂ := by
  have sperm : (runStream runs₁).Perm (runStream runs₂) := runStream_perm hperm
  have H1₂ : ∀ p ∈ runStream runs₂, ∀ q ∈ runStream runs₂,
      instanceKeyOf p.2 = instanceKeyOf q.2 →
      p.2.implicated_third_party_files_details = q.2.implicated_third_party_files_details :=
    fun p hp q hq => H1 p (sperm.symm.subset hp) q (sperm.symm.subset hq)
  have H2₂ : ∀ p ∈ runStream runs₂, ∀ q ∈ runStream runs₂,
      instanceKeyOf p.2 ≠ instanceKeyOf q.2 → displayTriple p.2 ≠ displayTriple q.2 :=
    fun p hp q hq => H2 p (sperm.symm.subset hp) q (sperm.symm.subset hq)
  have hsorted₁ : List.Sorted aggLeP (finalReport runs₁) :=
    sortedConsolidated_sorted (consolidateRuns runs₁)
  have hsorted₂ : List.Sorted aggLeP (finalReport runs₂) :=
    sortedConsolidated_sorted (consolidateRuns runs₂)
  refine ⟨hsorted₁, ?_⟩
  have htriple_symm : ∀ {a b : AggregatedDiagnosticInstance},
      aggTriple a ≠ aggTriple b → aggTriple b ≠ aggTriple a :=
    fun h heq => h heq.symm
  have hne₁ : (finalReport runs₁).Pairwise (fun a b => aggTriple a ≠ aggTriple b) := by
    have := pairwise_triple_ne runs₁ H2
    exact ((List.perm_insertionSort aggLeP _).pairwise_iff htriple_symm).mpr this
  have hne₂ : (finalReport runs₂).Pairwise (fun a b => aggTriple a ≠ aggTriple b) := by
    have := pairwise_triple_ne runs₂ H2₂
    exact ((List.perm_insertionSort aggLeP _).pairwise_iff htriple_symm).mpr this
  have hmem : ∀ a, a ∈ finalReport runs₁ ↔ a ∈ finalReport runs₂ := by
    intro a
    rw [show finalReport runs₁ = sortedConsolidated (consolidateRuns runs₁) from rfl,
      show finalReport runs₂ = sortedConsolidated (consolidateRuns runs₂) from rfl,
      mem_sortedConsolidated, mem_sortedConsolidated,
      mem_values_iff_alookup (nodup_keys_consolidateRuns runs₁),
      mem_values_iff_alookup (nodup_keys_consolidateRuns runs₂)]
    constructor
    · rintro ⟨k, hk⟩
      refine ⟨k, ?_⟩
      rw [alookup_consolidateRuns, ← entryFor_congr sperm H1 k, ← alookup_consolidateRuns]
      exact hk
    · rintro ⟨k, hk⟩
      refine ⟨k, ?_⟩
      rw [alookup_consolidateRuns, entryFor_congr sperm H1 k, ← alookup_consolidateRuns]
      exact hk
  refine @pairwise_ext_of_mem AggregatedDiagnosticInstance
    (fun a b => aggLeP a b ∧ aggTriple a ≠ aggTriple b) ?_ _ _ ?_ ?_ hmem
  · rintro a b ⟨hab, hne⟩ ⟨hba, _⟩
    exact hne (aggLe_antisymm_triple a b hab hba)
  · exact hsorted₁.and hne₁
  · exact hsorted₂.and hne₂

/-- Claim C7 (witness).  A concrete instantiation of the amended theorem: two
runs with distinct sort triples, probed in both orders, give the same sorted
report. -/
theorem c7_witness :
    List.Sorted aggLeP (finalReport wRunsA) ∧ finalReport wRunsA = finalReport wRunsB :=
  c7_sorted_and_probe_order_independent wRunsA wRunsB (by decide) (by decide) (by decide)

/-! ### Deduplication of candidate configurations -/

theorem dedupFrom_congr {seen₁ seen₂ : List Str} (h : ∀ x, x ∈ seen₁ ↔ x ∈ seen₂) :
    ∀ l : List (List Str), dedupFrom seen₁ l = dedupFrom seen₂ l := by
  intro l
  induction l generalizing seen₁ seen₂ with
  | nil => rfl
  | cons s rest ih =>
    rw [dedupFrom, dedupFrom]
    by_cases hk : canonicalKey s ∈ seen₁
    · rw [if_pos hk, if_pos ((h _).mp hk)]
      exact ih h
    · rw [if_neg hk, if_neg (fun hk₂ => hk ((h _).mpr hk₂))]
      have h₂ : ∀ x, x ∈ canonicalKey s :: seen₁ ↔ x ∈ canonicalKey s :: seen₂ := by
        intro x
        rw [List.mem_cons, List.mem_cons, h x]
      rw [ih h₂]

theorem dedupFeatureSets_go (sets : List (List Str)) :
    ∀ (seen : List Str) (acc : List (List Str)),
      (sets.foldl
        (fun acc₂ set =>
          let set_key := canonicalKey set
          if set_key ∈ acc₂.1 then acc₂ else (acc₂.1 ++ [set_key], acc₂.2 ++ [set]))
        (seen, acc)).2 = acc ++ dedupFrom seen sets := by
  induction sets with
  | nil =>
    intro seen acc
    simp [dedupFrom]
  | cons s rest ih =>
    intro seen acc
    rw [List.foldl_cons, dedupFrom]
    show (rest.foldl _
        (if canonicalKey s ∈ seen then (seen, acc)
         else (seen ++ [canonicalKey s], acc ++ [s]))).2 =
      acc ++ if canonicalKey s ∈ seen then dedupFrom seen rest
             else s :: dedupFrom (canonicalKey s :: seen) rest
    by_cases hk : canonicalKey s ∈ seen
    · rw [if_pos hk, if_pos hk]
      exact ih seen acc
    · rw [if_neg hk, if_neg hk]
      rw [ih (seen ++ [canonicalKey s]) (acc ++ [s])]
      have hc : dedupFrom (seen ++ [canonicalKey s]) rest =
          dedupFrom (canonicalKey s :: seen) rest := by
        refine dedupFrom_congr ?_ rest
        intro x
        rw [List.mem_append, List.mem_singleton, List.mem_cons]
        tauto
      rw [hc, List.append_assoc]
      rfl

theorem dedupFeatureSets_eq (sets : List (List Str)) :
    dedupFeatureSets sets = dedupFrom [] sets := by
  unfold dedupFeatureSets
  rw [dedupFeatureSets_go sets [] []]
  rfl

theorem dedupFrom_sublist : ∀ (l : List (List Str)) (seen : List Str),
    (dedupFrom seen l).Sublist l := by
  intro l
  induction l with
  | nil => intro seen; exact List.Sublist.refl _
  | cons s rest ih =>
    intro seen
    rw [dedupFrom]
    split_ifs with hk
    · exact (ih seen).cons s
    · exact (ih _).cons₂ s

theorem mem_keyDedup : ∀ (l : List Str) (k : Str), k ∈ keyDedup l ↔ k ∈ l := by
  intro l
  induction l with
  | nil => intro k; rfl
  | cons k₀ rest ih =>
    intro k
    rw [keyDedup, List.mem_cons, List.mem_cons]
    by_cases hk : k = k₀
    · subst hk
      simp
    · simp only [hk, false_or]
      rw [List.mem_filter]
      simp [hk, ih]

theorem keyDedup_nodup : ∀ l : List Str, (keyDedup l).Nodup := by
  intro l
  induction l with
  | nil => exact List.nodup_nil
  | cons k rest ih =>
    rw [keyDedup]
    refine List.nodup_cons.mpr ⟨?_, ?_⟩
    · intro hmem
      have := (List.mem_filter.mp hmem).2
      simp at this
    · exact ih.filter _

theorem map_key_dedupFrom : ∀ (l : List (List Str)) (seen : List Str),
    (dedupFrom seen l).map canonicalKey =
      (keyDedup (l.map canonicalKey)).filter (fun k => decide (k ∉ seen)) := by
  intro l
  induction l with
  | nil => intro seen; rfl
  | cons s rest ih =>
    intro seen
    rw [dedupFrom, List.map_cons, keyDedup]
    split_ifs with hk
    · rw [ih seen, List.filter_cons]
      rw [if_neg (by simpa using hk)]
      rw [List.filter_filter]
      refine List.filter_congr ?_
      intro x hx
      by_cases hxs : x ∈ seen
      · simp [hxs]
      · have hxk : x ≠ canonicalKey s := fun he => hxs (he ▸ hk)
        simp [hxs, hxk]
    · rw [List.map_cons, ih (canonicalKey s :: seen), List.filter_cons]
      rw [if_pos (by simpa using hk)]
      rw [List.filter_filter]
      refine congrArg (canonicalKey s :: ·) ?_
      refine List.filter_congr ?_
      intro x hx
      by_cases hxk : x = canonicalKey s
      · simp [hxk]
      · by_cases hxs : x ∈ seen
        · simp [hxs, hxk]
        · have : x ∉ canonicalKey s :: seen := by
            rw [List.mem_cons]
            tauto
          simp [hxs, hxk, this]

theorem map_key_dedupFeatureSets (sets : List (List Str)) :
    (dedupFeatureSets sets).map canonicalKey = keyDedup (sets.map canonicalKey) := by
  rw [dedupFeatureSets_eq, map_key_dedupFrom]
  refine List.filter_eq_self.mpr ?_
  intro x hx
  simp

theorem dedupFrom_eq_self : ∀ (l : List (List Str)) (seen : List Str),
    (l.map canonicalKey).Nodup → (∀ s ∈ l, canonicalKey s ∉ seen) →
    dedupFrom seen l = l := by
  intro l
  induction l with
  | nil => intro seen _ _; rfl
  | cons s rest ih =>
    intro seen hnd hs
    rw [List.map_cons, List.nodup_cons] at hnd
    rw [dedupFrom, if_neg (hs s (List.mem_cons_self s rest))]
    refine congrArg (s :: ·) (ih _ hnd.2 ?_)
    intro s₂ hs₂
    rw [List.mem_cons]
    rintro (he | hseen)
    · exact hnd.1 (he ▸ List.mem_map_of_mem canonicalKey hs₂)
    · exact hs s₂ (List.mem_cons_of_mem s hs₂) hseen

/-! ### Claim C3 -/

/-- Claim C3.  Post-processing of any candidate configuration list: the result
is a sublist of the input (first-seen order preserved, later duplicates
dropped); its canonical keys are exactly the first occurrences of the input's
canonical keys; the result never contains two entries sharing a canonical key;
and every input key is still represented, so dropping is only by key equality
with an earlier entry. -/
theorem c3_dedup_by_canonical_key (sets : List (List Str)) :
    (dedupFeatureSets sets).Sublist sets ∧
    (dedupFeatureSets sets).map canonicalKey = keyDedup (sets.map canonicalKey) ∧
    ((dedupFeatureSets sets).map canonicalKey).Nodup ∧
    (∀ k : Str, k ∈ (dedupFeatureSets sets).map canonicalKey ↔ k ∈ sets.map canonicalKey) := by
  refine ⟨?_, map_key_dedupFeatureSets sets, ?_, ?_⟩
  · rw [dedupFeatureSets_eq]
    exact dedupFrom_sublist sets []
  · rw [map_key_dedupFeatureSets]
    exact keyDedup_nodup _
  · intro k
    rw [map_key_dedupFeatureSets]
    exact mem_keyDedup _ k

/-- Claim C3 (witness).  The post-processing theorem applied to the concrete
candidate list `[["b","a"], ["c"], ["a","b"]]`, whose first and third entries
share the canonical key `"a b"`. -/
theorem c3_dedup_by_canonical_key_witness :
    (dedupFeatureSets [[str "b", str "a"], [str "c"], [str "a", str "b"]]).Sublist
        [[str "b", str "a"], [str "c"], [str "a", str "b"]] ∧
    (dedupFeatureSets [[str "b", str "a"], [str "c"], [str "a", str "b"]]).map canonicalKey =
      keyDedup ([[str "b", str "a"], [str "c"], [str "a", str "b"]].map canonicalKey) ∧
    ((dedupFeatureSets [[str "b", str "a"], [str "c"], [str "a", str "b"]]).map
        canonicalKey).Nodup ∧
    (∀ k : Str,
      k ∈ (dedupFeatureSets [[str "b", str "a"], [str "c"], [str "a", str "b"]]).map
          canonicalKey ↔
        k ∈ [[str "b", str "a"], [str "c"], [str "a", str "b"]].map canonicalKey) :=
  c3_dedup_by_canonical_key [[str "b", str "a"], [str "c"], [str "a", str "b"]]

/-! ### Claim C2 -/

theorem filterMap_guard {α β : Type} (p : α → Prop) [DecidablePred p] (g : α → β) :
    ∀ l : List α,
      l.filterMap (fun a => if p a then none else some (g a)) =
        (l.filter (fun a => decide (¬ p a))).map g := by
  intro l
  induction l with
  | nil => rfl
  | cons a rest ih =>
    rw [List.filterMap_cons, List.filter_cons]
    by_cases hp : p a
    · rw [if_pos hp, if_neg (by simpa using hp), ih]
    · rw [if_neg hp, if_pos (decide_eq_true hp), List.map_cons, ih]

theorem comprehensiveCandidates_parsed (features : List (Str × List Str))
    (hne : features ≠ []) :
    comprehensiveCandidates (.parsed features) =
      [[]] ++ [[flagNoDefault]] ++
        ((features.map Prod.fst).filter
            (fun name => decide (name ≠ str "default"))).map
          (fun name => [flagNoDefault, flagFeatures, name]) ++
        [[flagAllFeatures]] := by
  show ([[]] ++
      (if features.isEmpty = true then []
       else
         [[flagNoDefault]] ++
           (features.map Prod.fst).filterMap
             (fun name =>
               if name = str "default" then none
               else some [flagNoDefault, flagFeatures, name]) ++
           [[flagAllFeatures]])) = _
  rw [if_neg (by simpa using hne)]
  rw [filterMap_guard (fun name => name = str "default")
    (fun name => [flagNoDefault, flagFeatures, name]) (features.map Prod.fst)]
  simp [List.append_assoc]

/-- Claim C2 (counterexample).  The code iterates the declared feature groups
through a `std` `HashMap`, whose iteration order is arbitrary and independent
across two reads of the same manifest.  For the manifest declaring the groups
`x` and `y` (in that declaration order), the two possible iteration orders are
permutations of one another, yet they make the builder produce configuration
lists whose canonical-key sequences differ — so the builder's output is not
determined by the declared groups: the group configurations need not appear in
declaration order, and two runs against the same manifest need not yield equal
configuration lists under canonical-key comparison. -/
theorem c2_counterexample :
    ([(str "x", ([] : List Str)), (str "y", [])] : List (Str × List Str)).Perm
      [(str "y", []), (str "x", [])] ∧
    ∃ l₁ l₂ : List (List Str),
      get_feature_sets_to_check none (.parsed [(str "x", []), (str "y", [])]) = .ok l₁ ∧
      get_feature_sets_to_check none (.parsed [(str "y", []), (str "x", [])]) = .ok l₂ ∧
      l₁.map canonicalKey ≠ l₂.map canonicalKey := by
  refine ⟨by decide, _, _, rfl, rfl, by decide⟩

/-- Claim C2 (amended).  In comprehensive mode, when the manifest declares
feature groups, the matrix builder yields exactly, in order: the no-flags
baseline, then no-default-features, then one no-defaults+single-feature
configuration per declared non-default group in the manifest map's iteration
order — which is arbitrary, not declaration order — then all-features; the
output's canonical keys are duplicate-free; and for any two iteration orders
of the same declared groups (two runs against the same manifest), the two
configuration lists carry the same canonical keys up to reordering, though not
necessarily as equal ordered lists (see the counterexample).  The hypothesis
`hkeys` — the candidates' canonical keys are pairwise distinct — holds for
ordinary distinct group names and is checked by evaluation in the witness. -/
theorem c2_comprehensive_iteration_order (features : List (Str × List Str))
    (hne : features ≠ [])
    (hkeys : ((comprehensiveCandidates (.parsed features)).map canonicalKey).Nodup) :
    get_feature_sets_to_check none (.parsed features) =
      .ok ([[]] ++ [[flagNoDefault]] ++
        ((features.map Prod.fst).filter
            (fun name => decide (name ≠ str "default"))).map
          (fun name => [flagNoDefault, flagFeatures, name]) ++
        [[flagAllFeatures]]) ∧
    (∃ l, get_feature_sets_to_check none (.parsed features) = .ok l ∧
      (l.map canonicalKey).Nodup) ∧
    (∀ features₂ : List (Str × List Str), features.Perm features₂ →
      ∃ l₁ l₂ : List (List Str),
        get_feature_sets_to_check none (.parsed features) = .ok l₁ ∧
        get_feature_sets_to_check none (.parsed features₂) = .ok l₂ ∧
        (l₁.map canonicalKey).Perm (l₂.map canonicalKey)) := by
  have hok : get_feature_sets_to_check none (.parsed features) =
      .ok (dedupFeatureSets (comprehensiveCandidates (.parsed features))) := rfl
  have hdedup : dedupFeatureSets (comprehensiveCandidates (.parsed features)) =
      comprehensiveCandidates (.parsed features) := by
    rw [dedupFeatureSets_eq]
    exact dedupFrom_eq_self _ [] hkeys (fun s _ => List.not_mem_nil (canonicalKey s))
  refine ⟨?_, ?_, ?_⟩
  · rw [hok, hdedup, comprehensiveCandidates_parsed features hne]
  · refine ⟨dedupFeatureSets (comprehensiveCandidates (.parsed features)), hok, ?_⟩
    rw [map_key_dedupFeatureSets]
    exact keyDedup_nodup _
  · intro features₂ hp
    have hne₂ : features₂ ≠ [] := fun h => hne ((h ▸ hp).eq_nil)
    have hmid :
        (((features.map Prod.fst).filter
            (fun name => decide (name ≠ str "default"))).map
          (fun name => [flagNoDefault, flagFeatures, name])).Perm
        (((features₂.map Prod.fst).filter
            (fun name => decide (name ≠ str "default"))).map
          (fun name => [flagNoDefault, flagFeatures, name])) :=
      ((hp.map Prod.fst).filter _).map _
    have hcandperm :
        (comprehensiveCandidates (.parsed features)).Perm
          (comprehensiveCandidates (.parsed features₂)) := by
      rw [comprehensiveCandidates_parsed features hne,
        comprehensiveCandidates_parsed features₂ hne₂]
      exact (hmid.append_left ([[]] ++ [[flagNoDefault]])).append_right [[flagAllFeatures]]
    have hkeys₂ :
        ((comprehensiveCandidates (.parsed features₂)).map canonicalKey).Nodup :=
      (hcandperm.map canonicalKey).nodup_iff.mp hkeys
    have hdedup₂ : dedupFeatureSets (comprehensiveCandidates (.parsed features₂)) =
        comprehensiveCandidates (.parsed features₂) := by
      rw [dedupFeatureSets_eq]
      exact dedupFrom_eq_self _ [] hkeys₂ (fun s _ => List.not_mem_nil (canonicalKey s))
    refine ⟨dedupFeatureSets (comprehensiveCandidates (.parsed features)),
      dedupFeatureSets (comprehensiveCandidates (.parsed features₂)), rfl, rfl, ?_⟩
    rw [hdedup, hdedup₂]
    exact hcandperm.map canonicalKey

/-- Claim C2 (witness).  Scenario A's manifest declares the groups `x`, `y`;
for the iteration order `x` before `y` the builder yields exactly
`[no-flags]`, `[no-defaults]`, `[no-defaults+x]`, `[no-defaults+y]`,
`[all-features]` with distinct keys, and the opposite iteration order `y`
before `x` carries the same canonical keys up to reordering. -/
theorem c2_comprehensive_iteration_order_witness :
    get_feature_sets_to_check none
        (.parsed [(str "x", []), (str "y", [])]) =
      .ok ([[]] ++ [[flagNoDefault]] ++
        (([(str "x", ([] : List Str)), (str "y", [])].map Prod.fst).filter
            (fun name => decide (name ≠ str "default"))).map
          (fun name => [flagNoDefault, flagFeatures, name]) ++
        [[flagAllFeatures]]) ∧
    (∃ l, get_feature_sets_to_check none (.parsed [(str "x", []), (str "y", [])]) = .ok l ∧
      (l.map canonicalKey).Nodup) ∧
    (∃ l₁ l₂ : List (List Str),
      get_feature_sets_to_check none (.parsed [(str "x", []), (str "y", [])]) = .ok l₁ ∧
      get_feature_sets_to_check none (.parsed [(str "y", []), (str "x", [])]) = .ok l₂ ∧
      (l₁.map canonicalKey).Perm (l₂.map canonicalKey)) :=
  ⟨(c2_comprehensive_iteration_order [(str "x", []), (str "y", [])]
      (by decide) (by decide)).1,
   (c2_comprehensive_iteration_order [(str "x", []), (str "y", [])]
      (by decide) (by decide)).2.1,
   (c2_comprehensive_iteration_order [(str "x", []), (str "y", [])]
      (by decide) (by decide)).2.2 [(str "y", []), (str "x", [])] (by decide)⟩

/-! ### Claim C10 -/

/-- Claim C10.  For every focus-feature option and every manifest state,
`get_feature_sets_to_check` returns `Ok` with a non-empty configuration list:
the body has no error path (every manifest failure is degraded in place), and
every branch seeds the candidate list with at least one configuration that
deduplication keeps, so the error fallback in `main` is unreachable and at
least one probe always runs. -/
theorem c10_feature_sets_always_ok_nonempty (context_features : Option (List Str))
    (manifest : ManifestState) :
    ∃ l, get_feature_sets_to_check context_features manifest = Except.ok l ∧ l ≠ [] := by
  refine ⟨_, rfl, ?_⟩
  have hne : ∀ (s : List Str) (rest : List (List Str)),
      dedupFeatureSets (s :: rest) ≠ [] := by
    intro s rest
    rw [dedupFeatureSets_eq, dedupFrom]
    rw [if_neg (List.not_mem_nil (canonicalKey s))]
    exact List.cons_ne_nil s _
  cases context_features with
  | some targets =>
    show dedupFeatureSets (targetedCandidates targets) ≠ []
    unfold targetedCandidates
    split_ifs with h
    · exact hne [] []
    · exact hne _ _
  | none =>
    show dedupFeatureSets (comprehensiveCandidates manifest) ≠ []
    unfold comprehensiveCandidates
    exact hne [] _

/-! ### Claim C4 -/

theorem findPrimarySpanLoc_eq_find (current_dir : FsPath) :
    ∀ spans : List RustcSpan,
      findPrimarySpanLoc current_dir spans =
        (spans.find? (fun s => s.is_primary)).map (spanLocStr current_dir) := by
  intro spans
  induction spans with
  | nil => rfl
  | cons s rest ih =>
    cases hp : s.is_primary with
    | true =>
      rw [findPrimarySpanLoc, if_pos hp, List.find?_cons_of_pos _ hp]
      rfl
    | false =>
      rw [findPrimarySpanLoc, if_neg (by simp [hp]), List.find?_cons_of_neg _ (by simp [hp]), ih]

/-- Claim C4.  The walker's primary location for a node: the first span
flagged primary yields `"path:line"`; otherwise the first span present yields
`"path:line (non-primary)"`; otherwise the literal `"Unknown diagnostic
location"`.  `List.find?` returns the first match, so when two spans are
flagged primary only the first-encountered one is used — the second conjunct
states this explicitly: the location of `s₁ :: rest` with `s₁` primary never
depends on `rest`. -/
theorem c4_primary_location (current_dir : FsPath) (spans : List RustcSpan) :
    (finalPrimaryLocStr current_dir spans =
      match spans.find? (fun s => s.is_primary) with
      | some s => spanLocStr current_dir s
      | none =>
        match spans with
        | [] => str "Unknown diagnostic location"
        | s :: _ => spanLocStr current_dir s ++ str " (non-primary)") ∧
    (∀ (s₁ : RustcSpan) (rest : List RustcSpan), s₁.is_primary = true →
      finalPrimaryLocStr current_dir (s₁ :: rest) = spanLocStr current_dir s₁) := by
  constructor
  · unfold finalPrimaryLocStr
    rw [findPrimarySpanLoc_eq_find]
    cases h : spans.find? (fun s => s.is_primary) with
    | some s => rfl
    | none => rfl
  · intro s₁ rest hp
    unfold finalPrimaryLocStr
    rw [findPrimarySpanLoc, if_pos hp]

/-- Claim C4 (witness).  A diagnostic with two primary-flagged spans at lines
3 and 9 of the same file uses only the first-encountered one: the location is
that of line 3, whatever follows. -/
theorem c4_primary_location_witness :
    finalPrimaryLocStr ⟨true, [str "proj"]⟩
        (⟨⟨true, [str "proj", str "f.rs"]⟩, true, 3⟩ ::
          [⟨⟨true, [str "proj", str "f.rs"]⟩, true, 9⟩]) =
      spanLocStr ⟨true, [str "proj"]⟩ ⟨⟨true, [str "proj", str "f.rs"]⟩, true, 3⟩ :=
  (c4_primary_location ⟨true, [str "proj"]⟩
      (⟨⟨true, [str "proj", str "f.rs"]⟩, true, 3⟩ ::
        [⟨⟨true, [str "proj", str "f.rs"]⟩, true, 9⟩])).2
    ⟨⟨true, [str "proj", str "f.rs"]⟩, true, 3⟩
    [⟨⟨true, [str "proj", str "f.rs"]⟩, true, 9⟩] rfl

/-! ### Claim C6 -/

theorem spanThirdParty_some_iff (env : RunEnv) (span : RustcSpan) (canonical : FsPath) :
    spanThirdParty env span = some canonical ↔
      classifySpanPath env span = .thirdParty canonical := by
  unfold spanThirdParty
  cases h : classifySpanPath env span with
  | inProject => simp
  | unclassifiable => simp
  | thirdParty c =>
    simp only [Option.some_inj]
    constructor
    · intro hc
      rw [hc]
    · intro hc
      exact (PathClass.thirdParty.injEq _ _).mp hc

/-- Claim C6.  The span classifier yields `thirdParty` only when
canonicalization of the resolved span path succeeds, the canonical path does
not lie under the project root, it lies under a recognized external-dependency
root (the cargo registry or git-checkout cache under the cargo home), and it
currently is a regular file; consequently it never yields `thirdParty` for a
canonical path under the project root or for a path that is not an existing
regular file.  When canonicalization fails, the span-processing step leaves
every accumulator (detail list, run file set, backreference index) unchanged:
the file is silently dropped from every set. -/
theorem c6_third_party_classification (env : RunEnv) (span : RustcSpan) :
    (∀ canonical : FsPath, spanThirdParty env span = some canonical →
      env.fs.canonicalize
          (if span.file_name.absolute then span.file_name
           else env.current_dir.join span.file_name) = some canonical ∧
      canonical.startsWith env.current_dir = false ∧
      (∃ ch : FsPath, env.cargo_home_dir = some ch ∧
        (canonical.startsWith
            ((ch.join ⟨false, [str "registry"]⟩).join ⟨false, [str "src"]⟩) = true ∨
         canonical.startsWith
            ((ch.join ⟨false, [str "git"]⟩).join ⟨false, [str "checkouts"]⟩) = true)) ∧
      env.fs.isFile canonical = true) ∧
    (env.fs.canonicalize
        (if span.file_name.absolute then span.file_name
         else env.current_dir.join span.file_name) = none →
      classifySpanPath env span = .unclassifiable ∧
      ∀ (level : Str) (codeStr : Option Str) (loc : Str)
        (acc : List (FsPath × Str) × List FsPath × List (FsPath × List DiagnosticOriginInfo)),
        processSpan env level codeStr loc acc span = acc) := by
  have hchar : classifySpanPath env span =
      (match env.fs.canonicalize
          (if span.file_name.absolute then span.file_name
           else env.current_dir.join span.file_name) with
       | none => PathClass.unclassifiable
       | some cp =>
         if cp.startsWith env.current_dir then PathClass.inProject
         else
           if ((match env.cargo_home_dir with
                | some ch =>
                  cp.startsWith
                    ((ch.join ⟨false, [str "registry"]⟩).join ⟨false, [str "src"]⟩)
                | none => false) ||
               (match env.cargo_home_dir with
                | some ch =>
                  cp.startsWith
                    ((ch.join ⟨false, [str "git"]⟩).join ⟨false, [str "checkouts"]⟩)
                | none => false)) && env.fs.isFile cp then
             PathClass.thirdParty cp
           else PathClass.unclassifiable) := rfl
  constructor
  · intro canonical hsome
    rw [spanThirdParty_some_iff, hchar] at hsome
    split at hsome
    · exact absurd hsome (by simp)
    · next cp heq =>
      split_ifs at hsome with hroot hcond
      · have hcp : cp = canonical := (PathClass.thirdParty.injEq _ _).mp hsome
        subst hcp
        rcases Bool.and_eq_true_iff.mp hcond with ⟨hor, hfile⟩
        refine ⟨heq, Bool.eq_false_iff.mpr hroot, ?_, hfile⟩
        cases hch : env.cargo_home_dir with
        | none =>
          rw [hch] at hor
          simp at hor
        | some ch =>
          rw [hch] at hor
          exact ⟨ch, rfl, Bool.or_eq_true_iff.mp hor⟩
  · intro hcanon
    have hclass : classifySpanPath env span = .unclassifiable := by
      rw [hchar, hcanon]
    refine ⟨hclass, ?_⟩
    intro level codeStr loc acc
    unfold processSpan
    rw [show spanThirdParty env span = none by
      unfold spanThirdParty
      rw [hclass]]

/-- Claim C6 (witness).  In the concrete environment `wEnv`, the span `wSpan`
classifies as third-party, and the theorem's guarantees evaluate: its
canonicalization succeeded, the canonical path is outside the project root,
under the registry root, and an existing regular file. -/
theorem c6_third_party_classification_witness :
    wEnv.fs.canonicalize
        (if wSpan.file_name.absolute then wSpan.file_name
         else wEnv.current_dir.join wSpan.file_name) =
      some ⟨true, [str "home", str "registry", str "src", str "dep.rs"]⟩ ∧
    FsPath.startsWith ⟨true, [str "home", str "registry", str "src", str "dep.rs"]⟩
        wEnv.current_dir = false ∧
    (∃ ch : FsPath, wEnv.cargo_home_dir = some ch ∧
      (FsPath.startsWith ⟨true, [str "home", str "registry", str "src", str "dep.rs"]⟩
          ((ch.join ⟨false, [str "registry"]⟩).join ⟨false, [str "src"]⟩) = true ∨
       FsPath.startsWith ⟨true, [str "home", str "registry", str "src", str "dep.rs"]⟩
          ((ch.join ⟨false, [str "git"]⟩).join ⟨false, [str "checkouts"]⟩) = true)) ∧
    wEnv.fs.isFile ⟨true, [str "home", str "registry", str "src", str "dep.rs"]⟩ = true :=
  (c6_third_party_classification wEnv wSpan).1
    ⟨true, [str "home", str "registry", str "src", str "dep.rs"]⟩ (by decide)

/-! ### Claim C8 -/

/-- Claim C8 (counterexample).  A failing probe for the default configuration
produces exactly one synthetic record with pseudo-level `TOOL_ERROR` — but its
primary location is the three-character placeholder `"N/A"`, not the empty
string the claim describes. -/
theorem c8_counterexample :
    (mainProbeLoop (fun _ => .error (str "boom")) [[]]
        ⟨[], [], []⟩).all_displayable_diagnostics =
      [(str "default features", [toolErrorDiagnostic (str "default features") (str "boom")])] ∧
    (toolErrorDiagnostic (str "default features")
        (str "boom")).primary_location_of_diagnostic = str "N/A" ∧
    (toolErrorDiagnostic (str "default features")
        (str "boom")).primary_location_of_diagnostic ≠ [] := by
  refine ⟨by decide, by decide, by decide⟩

/-- Claim C8 (amended).  When the probe for a configuration fails, the session
loop appends exactly one synthetic record for that configuration — pseudo-level
`"TOOL_ERROR"`, the placeholder location `"N/A"` (not an empty location), no
code, no implicated files, and the formatted failure text as rendered message —
and then continues with the remaining configurations exactly as it would have
from the extended state: one failing configuration never stops the session. -/
theorem c8_failed_probe_synthetic_record
    (probe : List Str → Except Str CargoRunResult)
    (feature_args : List Str) (rest : List (List Str)) (st : SessionState) (e : Str)
    (hfail : probe feature_args = .error e) :
    mainProbeLoop probe (feature_args :: rest) st =
      mainProbeLoop probe rest
        { st with
            all_displayable_diagnostics :=
              st.all_displayable_diagnostics ++
                [(featureDescOf feature_args,
                  [toolErrorDiagnostic (featureDescOf feature_args) e])] } ∧
    (toolErrorDiagnostic (featureDescOf feature_args) e).level = str "TOOL_ERROR" ∧
    (toolErrorDiagnostic (featureDescOf feature_args) e).primary_location_of_diagnostic =
      str "N/A" ∧
    (toolErrorDiagnostic (featureDescOf feature_args) e).code = none ∧
    (toolErrorDiagnostic (featureDescOf feature_args) e).rendered =
      toolErrorMessage (featureDescOf feature_args) e ∧
    (toolErrorDiagnostic (featureDescOf feature_args) e).implicated_third_party_files_details =
      [] := by
    refine ⟨?_, rfl, rfl, rfl, rfl, rfl⟩
    rw [mainProbeLoop, hfail]

/-- Claim C8 (witness).  The amended theorem applied to a probe that fails
with `"boom"` on the default configuration, with one further configuration
remaining. -/
theorem c8_failed_probe_synthetic_record_witness :
    mainProbeLoop (fun _ => .error (str "boom")) ([] :: [[str "--all-features"]])
        ⟨[], [], []⟩ =
      mainProbeLoop (fun _ => .error (str "boom")) [[str "--all-features"]]
        { (⟨[], [], []⟩ : SessionState) with
            all_displayable_diagnostics :=
              ([] : List (Str × List DisplayableDiagnostic)) ++
                [(featureDescOf [],
                  [toolErrorDiagnostic (featureDescOf []) (str "boom")])] } ∧
    (toolErrorDiagnostic (featureDescOf []) (str "boom")).level = str "TOOL_ERROR" ∧
    (toolErrorDiagnostic (featureDescOf [])
        (str "boom")).primary_location_of_diagnostic = str "N/A" ∧
    (toolErrorDiagnostic (featureDescOf []) (str "boom")).code = none ∧
    (toolErrorDiagnostic (featureDescOf []) (str "boom")).rendered =
      toolErrorMessage (featureDescOf []) (str "boom") ∧
    (toolErrorDiagnostic (featureDescOf [])
        (str "boom")).implicated_third_party_files_details = [] :=
  c8_failed_probe_synthetic_record (fun _ => .error (str "boom")) []
    [[str "--all-features"]] ⟨[], [], []⟩ (str "boom") rfl

/-! ### Claim C9 -/

theorem collectExplanations_eq_explFold (runs : List (Str × List DisplayableDiagnostic)) :
    collectExplanations runs = explFold (runStream runs) [] := by
  suffices h : ∀ m : List (Str × Str),
      runs.foldl (fun m₂ run => run.2.foldl explanationStep m₂) m =
        explFold (runStream runs) m by
    exact h []
  induction runs with
  | nil => intro m; rfl
  | cons run rest ih =>
    intro m
    rw [List.foldl_cons, ih]
    have hstream : runStream (run :: rest) =
        run.2.map (fun d => (run.1, d)) ++ runStream rest := rfl
    rw [hstream]
    unfold explFold
    rw [List.foldl_append, List.foldl_map]

theorem alookup_explFold (s : List (Str × DisplayableDiagnostic)) :
    ∀ (m : List (Str × Str)) (c : Str),
      alookup c (explFold s m) =
        match alookup c m with
        | some e => some e
        | none => firstExplanationFor c s := by
  induction s with
  | nil =>
    intro m c
    cases h : alookup c m with
    | some e => simp [explFold, h]
    | none => simp [explFold, h, firstExplanationFor]
  | cons pr rest ih =>
    intro m c
    obtain ⟨desc, d⟩ := pr
    obtain ⟨lvl, cod, expl, rend, loc, imp⟩ := d
    have hstep : explFold ((desc, ⟨lvl, cod, expl, rend, loc, imp⟩) :: rest) m =
        explFold rest (explanationStep m ⟨lvl, cod, expl, rend, loc, imp⟩) := rfl
    rw [hstep, ih]
    cases cod with
    | none =>
      cases expl with
      | none => simp [explanationStep, firstExplanationFor]
      | some e => simp [explanationStep, firstExplanationFor]
    | some c₂ =>
      cases expl with
      | none => simp [explanationStep, firstExplanationFor]
      | some e =>
        by_cases htrim : trimS e = []
        · simp [explanationStep, firstExplanationFor, htrim]
        · by_cases hcc : c₂ = c
          · subst hcc
            cases hm : alookup c₂ m with
            | some e₀ => simp [explanationStep, firstExplanationFor, htrim, hm]
            | none =>
              simp only [explanationStep, firstExplanationFor, htrim, hm,
                List.isEmpty_iff, if_false, if_neg htrim]
              rw [alookup_append_of_none _ hm, alookup_cons, if_pos rfl]
              simp [htrim]
          · cases hm : alookup c₂ m with
            | some e₀ =>
              simp [explanationStep, firstExplanationFor, htrim, hm, hcc]
            | none =>
              have hstep₂ : explanationStep m ⟨lvl, some c₂, some e, rend, loc, imp⟩ =
                  m ++ [(c₂, e)] := by
                simp [explanationStep, htrim, hm]
              rw [hstep₂]
              cases hmc : alookup c m with
              | some e₀ =>
                rw [alookup_append_of_some _ hmc]
              | none =>
                rw [alookup_append_of_none _ hmc, alookup_cons, if_neg hcc]
                simp [hmc, firstExplanationFor, hcc, alookup]

/-- Claim C9.  For every sequence of per-diagnostic records processed by the
consolidator, the code→explanation map holds, for each code, exactly the first
non-empty (after trimming) explanation encountered for that code in the record
stream; every later explanation for the same code is ignored, whichever
diagnostic surfaced it. -/
theorem c9_first_explanation_wins (runs : List (Str × List DisplayableDiagnostic))
    (c : Str) :
    alookup c (collectExplanations runs) = firstExplanationFor c (runStream runs) := by
  rw [collectExplanations_eq_explFold, alookup_explFold]
  rfl

/-! ### Walker structure lemmas -/

theorem processSpan_fold_details (env : RunEnv) (level : Str) (codeStr : Option Str)
    (loc : Str) :
    ∀ (spans : List RustcSpan) (dacc : List (FsPath × Str)) (f₁ f₂ : List FsPath)
      (r₁ r₂ : List (FsPath × List DiagnosticOriginInfo)),
      (spans.foldl (processSpan env level codeStr loc) (dacc, f₁, r₁)).1 =
        (spans.foldl (processSpan env level codeStr loc) (dacc, f₂, r₂)).1 := by
  intro spans
  induction spans with
  | nil => intro dacc f₁ f₂ r₁ r₂; rfl
  | cons sp rest ih =>
    intro dacc f₁ f₂ r₁ r₂
    rw [List.foldl_cons, List.foldl_cons]
    cases h : spanThirdParty env sp with
    | none =>
      have h₁ : processSpan env level codeStr loc (dacc, f₁, r₁) sp = (dacc, f₁, r₁) := by
        unfold processSpan
        rw [h]
      have h₂ : processSpan env level codeStr loc (dacc, f₂, r₂) sp = (dacc, f₂, r₂) := by
        unfold processSpan
        rw [h]
      rw [h₁, h₂]
      exact ih dacc f₁ f₂ r₁ r₂
    | some canonical_path =>
      have h₁ : processSpan env level codeStr loc (dacc, f₁, r₁) sp =
          ((if (canonical_path,
                canonical_path.fileName ++ [Char.ofNat 58] ++ natToStr sp.line_start) ∈ dacc
            then dacc
            else dacc ++ [(canonical_path,
              canonical_path.fileName ++ [Char.ofNat 58] ++ natToStr sp.line_start)]),
           insertFile canonical_path f₁,
           refInsert canonical_path ⟨level, codeStr, loc, env.feature_desc⟩ r₁) := by
        unfold processSpan
        rw [h]
      have h₂ : processSpan env level codeStr loc (dacc, f₂, r₂) sp =
          ((if (canonical_path,
                canonical_path.fileName ++ [Char.ofNat 58] ++ natToStr sp.line_start) ∈ dacc
            then dacc
            else dacc ++ [(canonical_path,
              canonical_path.fileName ++ [Char.ofNat 58] ++ natToStr sp.line_start)]),
           insertFile canonical_path f₂,
           refInsert canonical_path ⟨level, codeStr, loc, env.feature_desc⟩ r₂) := by
        unfold processSpan
        rw [h]
      rw [h₁, h₂]
      exact ih _ _ _ _ _

mutual

theorem process_single_displayable (env : RunEnv) :
    ∀ (d : RustcDiagnosticData) (st : RunState),
      (process_single_diagnostic_data env d st).displayable_diagnostics =
        st.displayable_diagnostics ++ nodeRecords env d
  | .mk code level spans children rendered, st => by
    simp only [process_single_diagnostic_data, nodeRecords]
    rw [process_children_displayable env children]
    rw [processSpan_fold_details env level (code.map RustcErrorCode.code)
      (finalPrimaryLocStr env.current_dir spans) spans [] st.implicated_files []
      st.referencers []]
    rw [List.append_assoc]

theorem process_children_displayable (env : RunEnv) :
    ∀ (ds : List RustcDiagnosticData) (st : RunState),
      (process_diagnostic_children env ds st).displayable_diagnostics =
        st.displayable_diagnostics ++ childListRecords env ds
  | [], st => by
    rw [process_diagnostic_children, childListRecords, List.append_nil]
  | d :: rest, st => by
    rw [process_diagnostic_children, childListRecords]
    rw [process_children_displayable env rest]
    rw [process_single_displayable env d st]
    rw [List.append_assoc]

end

mutual

theorem process_single_files (env : RunEnv) :
    ∀ (d : RustcDiagnosticData) (st₁ st₂ : RunState),
      st₁.implicated_files = st₂.implicated_files →
      st₁.referencers = st₂.referencers →
      (process_single_diagnostic_data env d st₁).implicated_files =
          (process_single_diagnostic_data env d st₂).implicated_files ∧
        (process_single_diagnostic_data env d st₁).referencers =
          (process_single_diagnostic_data env d st₂).referencers
  | .mk code level spans children rendered, st₁, st₂, hf, hr => by
    simp only [process_single_diagnostic_data]
    rw [hf, hr]
    exact process_children_files env children _ _ rfl rfl

theorem process_children_files (env : RunEnv) :
    ∀ (ds : List RustcDiagnosticData) (st₁ st₂ : RunState),
      st₁.implicated_files = st₂.implicated_files →
      st₁.referencers = st₂.referencers →
      (process_diagnostic_children env ds st₁).implicated_files =
          (process_diagnostic_children env ds st₂).implicated_files ∧
        (process_diagnostic_children env ds st₁).referencers =
          (process_diagnostic_children env ds st₂).referencers
  | [], st₁, st₂, hf, hr => by
    rw [process_diagnostic_children, process_diagnostic_children]
    exact ⟨hf, hr⟩
  | d :: rest, st₁, st₂, hf, hr => by
    rw [process_diagnostic_children, process_diagnostic_children]
    rcases process_single_files env d st₁ st₂ hf hr with ⟨hf₂, hr₂⟩
    exact process_children_files env rest _ _ hf₂ hr₂

end

theorem isReportableLevel_iff (level : Str) :
    isReportableLevel level = true ↔ (level = str "error" ∨ level = str "warning") := by
  simp [isReportableLevel]

/-- Claim C5.  (a) The walker's emitted records are the node's own records
followed by every child's, so every node recurses into all children with the
same run environment whether or not it emits; (b) a node's own contribution is
`ownRecordsOf` over its sorted span details followed by the children's
records; (c) a node emits a standalone record iff its level is `error` or
`warning` and its rendered text is present and non-empty after trimming;
(d) when the test passes the single record is the `mkDisplayable` of the node;
(e) replacing a node's rendered text by `none` (failing the test) leaves the
run's implicated-file set and backreference index unchanged: a non-emitting
node still classifies every one of its spans. -/
theorem c5_record_emission (env : RunEnv) :
    (∀ (d : RustcDiagnosticData) (st : RunState),
      (process_single_diagnostic_data env d st).displayable_diagnostics =
        st.displayable_diagnostics ++ nodeRecords env d) ∧
    (∀ (code : Option RustcErrorCode) (level : Str) (spans : List RustcSpan)
        (children : List RustcDiagnosticData) (rendered : Option Str),
      nodeRecords env (.mk code level spans children rendered) =
        ownRecordsOf code level rendered
            (sortDetails ((spans.foldl
              (processSpan env level (code.map RustcErrorCode.code)
                (finalPrimaryLocStr env.current_dir spans))
              ([], [], [])).1))
            (finalPrimaryLocStr env.current_dir spans) ++
          childListRecords env children) ∧
    (∀ (code : Option RustcErrorCode) (level : Str) (rendered : Option Str)
        (details : List (FsPath × Str)) (loc : Str),
      ownRecordsOf code level rendered details loc ≠ [] ↔
        ((level = str "error" ∨ level = str "warning") ∧
          ∃ r, rendered = some r ∧ trimS r ≠ [])) ∧
    (∀ (code : Option RustcErrorCode) (level : Str) (r : Str)
        (details : List (FsPath × Str)) (loc : Str),
      (level = str "error" ∨ level = str "warning") → trimS r ≠ [] →
      ownRecordsOf code level (some r) details loc =
        [mkDisplayable code level r details loc]) ∧
    (∀ (code : Option RustcErrorCode) (level : Str) (spans : List RustcSpan)
        (children : List RustcDiagnosticData) (rendered : Option Str) (st : RunState),
      (process_single_diagnostic_data env
          (.mk code level spans children none) st).implicated_files =
        (process_single_diagnostic_data env
          (.mk code level spans children rendered) st).implicated_files ∧
      (process_single_diagnostic_data env
          (.mk code level spans children none) st).referencers =
        (process_single_diagnostic_data env
          (.mk code level spans children rendered) st).referencers) := by
  refine ⟨process_single_displayable env, fun _ _ _ _ _ => rfl, ?_, ?_, ?_⟩
  · intro code level rendered details loc
    unfold ownRecordsOf
    cases hrep : isReportableLevel level with
    | false =>
      rw [if_neg (by simp [hrep])]
      constructor
      · intro h
        exact absurd rfl h
      · rintro ⟨hlvl, _⟩
        rw [(isReportableLevel_iff level).mpr hlvl] at hrep
        exact Bool.noConfusion hrep
    | true =>
      rw [if_pos rfl]
      cases rendered with
      | none => simp
      | some r =>
        change ((if List.isEmpty (trimS r) = true then []
          else [mkDisplayable code level r details loc]) ≠ []) ↔ _
        by_cases htrim : (trimS r).isEmpty = true
        · rw [if_pos htrim]
          constructor
          · intro h
            exact absurd rfl h
          · rintro ⟨_, r₂, hr₂, hne⟩
            have hrr : r = r₂ := Option.some_inj.mp hr₂
            exact (hne (hrr ▸ List.isEmpty_iff.mp htrim)).elim
        · rw [if_neg htrim]
          constructor
          · intro _
            exact ⟨(isReportableLevel_iff level).mp hrep, r, rfl,
              fun he => htrim (by simp [he])⟩
          · intro _
            exact List.cons_ne_nil _ _
  · intro code level r details loc hlvl htrim
    unfold ownRecordsOf
    rw [if_pos ((isReportableLevel_iff level).mpr hlvl)]
    change (if List.isEmpty (trimS r) = true then []
      else [mkDisplayable code level r details loc]) = _
    rw [if_neg (fun h => htrim (List.isEmpty_iff.mp h))]
  · intro code level spans children rendered st
    simp only [process_single_diagnostic_data]
    exact process_children_files env children _ _ rfl rfl

/-- Claim C5 (witness).  A reportable error node with non-empty rendered text
emits exactly its `mkDisplayable` record. -/
theorem c5_record_emission_witness :
    ownRecordsOf none (str "error") (some (str "boom")) [] (str "loc") =
      [mkDisplayable none (str "error") (str "boom") [] (str "loc")] :=
  (c5_record_emission wEnv).2.2.2.1 none (str "error") (str "boom") [] (str "loc")
    (Or.inl rfl) (by decide)
